import Mathlib

/-! Verification of the NRTK sync client (`main.py`).

The development embeds the program's data model and its operations as
executable Lean functions.  JSON values are modelled by an inductive type,
the Python runtime errors the program can raise are modelled by `PyExn`,
and each method of the `NRTKSync` class is translated into a function on an
explicit engine/file-system state, returning `Except PyExn _` so that an
uncaught Python exception is visible as an `Except.error`.
-/

set_option maxHeartbeats 1000000

namespace NRTK

/-- JSON values, as produced by Python's `json.load`. -/
inductive Json where
  | null : Json
  | bool (b : Bool) : Json
  | num (n : Int) : Json
  | str (s : String) : Json
  | arr (elems : List Json) : Json
  | obj (fields : List (String × Json)) : Json

/-- Python exceptions relevant to the program that are not caught anywhere
on the modelled paths. -/
inductive PyExn where
  | keyError (k : String) : PyExn
  | typeError (msg : String) : PyExn
  | jsonDecodeError : PyExn
  | osError : PyExn
  deriving Repr, DecidableEq

namespace Json

/-- Python truthiness of a JSON-decoded value (`if x:`). -/
def truthy : Json → Bool
  | .null => false
  | .bool b => b
  | .num n => n != 0
  | .str s => !s.isEmpty
  | .arr xs => !xs.isEmpty
  | .obj fs => !fs.isEmpty

mutual

/-- Structural equality, modelling Python `==` / `!=` on JSON-decoded
values (exact for the scalar values — hash strings and anchors — that the
program actually compares). -/
def pyEq (x : Json) (y : Json) : Bool :=
  match x, y with
  | .str a, .str b => a == b
  | .num a, .num b => a == b
  | .bool a, .bool b => a == b
  | .null, .null => true
  | .arr xs, .arr ys => pyEqArr xs ys
  | .obj fs, .obj gs => pyEqObj fs gs
  | _, _ => false

/-- Elementwise comparison of JSON array contents. -/
def pyEqArr (xs : List Json) (ys : List Json) : Bool :=
  match xs, ys with
  | x :: xtl, y :: ytl => pyEq x y && pyEqArr xtl ytl
  | [], [] => true
  | _, _ => false

/-- Fieldwise comparison of JSON object contents. -/
def pyEqObj (fs : List (String × Json)) (gs : List (String × Json)) : Bool :=
  match fs, gs with
  | f :: ftl, g :: gtl => f.1 == g.1 && pyEq f.2 g.2 && pyEqObj ftl gtl
  | [], [] => true
  | _, _ => false

end

/-- Python membership test `k in j` for a string `k`:
key membership for dicts, element equality for lists, substring test for
strings, `TypeError` otherwise. -/
def hasMember (j : Json) (k : String) : Except PyExn Bool :=
  match j with
  | .obj fs => .ok (fs.any (fun p => p.1 == k))
  | .arr xs => .ok (xs.any (fun e => match e with | .str s => s == k | _ => false))
  | .str s => .ok (if k.isEmpty then true else (s.splitOn k).length > 1)
  | _ => .error (.typeError "argument of type is not iterable")

/-- Python subscript `j[k]` for a string key `k` (`KeyError` for a missing
dict key, `TypeError` for non-dict values). -/
def getItem (j : Json) (k : String) : Except PyExn Json :=
  match j with
  | .obj fs =>
      match fs.find? (fun p => p.1 == k) with
      | some p => .ok p.2
      | none => .error (.keyError k)
  | _ => .error (.typeError "value is not subscriptable with a string")

/-- Python `len(j)` (`TypeError` for values without a length). -/
def lenOf : Json → Except PyExn Nat
  | .str s => .ok s.length
  | .arr xs => .ok xs.length
  | .obj fs => .ok fs.length
  | _ => .error (.typeError "object has no length")

/-- Python iteration `for x in j`: list elements, string characters, dict
keys; `TypeError` otherwise. -/
def iterItems : Json → Except PyExn (List Json)
  | .arr xs => .ok xs
  | .str s => .ok (s.toList.map (fun c => .str (String.singleton c)))
  | .obj fs => .ok (fs.map (fun p => Json.str p.1))
  | _ => .error (.typeError "object is not iterable")

/-- Whether a value can be a Python dict key (lists and dicts are
unhashable). -/
def hashable : Json → Bool
  | .arr _ => false
  | .obj _ => false
  | _ => true

mutual

/-- Python `str(j)` conversion as used in f-strings (`repr` for nested
containers). -/
def pyRepr : Json → String
  | .null => "None"
  | .bool true => "True"
  | .bool false => "False"
  | .num n => toString n
  | .str s => "\x27" ++ s ++ "\x27"
  | .arr xs => "[" ++ pyReprList xs ++ "]"
  | .obj fs => "\x7b" ++ pyReprFields fs ++ "\x7d"

/-- Rendering of JSON array elements. -/
def pyReprList : List Json → String
  | [] => ""
  | [x] => pyRepr x
  | x :: xs => pyRepr x ++ ", " ++ pyReprList xs

/-- Rendering of JSON object fields. -/
def pyReprFields : List (String × Json) → String
  | [] => ""
  | [(k, v)] => "\x27" ++ k ++ "\x27: " ++ pyRepr v
  | (k, v) :: fs => "\x27" ++ k ++ "\x27: " ++ pyRepr v ++ ", " ++ pyReprFields fs

end

/-- Python `f"{j}"` conversion: plain text for strings, `str()` rendering
otherwise. -/
def pyStr : Json → String
  | .str s => s
  | j => pyRepr j

/-- Python slice `j[0:19]` (`TypeError` for non-sliceable values). -/
def pySlice19 : Json → Except PyExn Json
  | .str s => .ok (.str (s.take 19))
  | .arr xs => .ok (.arr (xs.take 19))
  | _ => .error (.typeError "object is not subscriptable")

/-- Argument check of Python's file `write`, which accepts only `str`. -/
def asWriteStr : Json → Except PyExn String
  | .str s => .ok s
  | _ => .error (.typeError "write argument must be str")

/-- Key conversion applied by `json.dump` to non-string dict keys. -/
def dictKey : Json → Except PyExn String
  | .str s => .ok s
  | .num n => .ok (toString n)
  | .bool true => .ok "true"
  | .bool false => .ok "false"
  | .null => .ok "null"
  | _ => .error (.typeError "unhashable type")

/-- Python dict item assignment `j[k] = v` (insert or replace in place;
`TypeError` for non-dict values). -/
def setItem (j : Json) (k : String) (v : Json) : Except PyExn Json :=
  match j with
  | .obj fs =>
      if fs.any (fun p => p.1 == k) then
        .ok (.obj (fs.map (fun p => if p.1 == k then (k, v) else p)))
      else
        .ok (.obj (fs ++ [(k, v)]))
  | _ => .error (.typeError "object does not support item assignment")

end Json

/-- Insert-or-replace on a string-keyed association list, used for files
of a directory and for the snapshot tree (insertion order preserved). -/
def listUpsert {α : Type} (l : List (String × α)) (k : String) (v : α) : List (String × α) :=
  if l.any (fun p => p.1 == k) then
    l.map (fun p => if p.1 == k then (k, v) else p)
  else
    l ++ [(k, v)]

/-- Lookup in a string-keyed association list. -/
def listLookup {α : Type} (l : List (String × α)) (k : String) : Option α :=
  match l.find? (fun p => p.1 == k) with
  | some p => some p.2
  | none => none

/-- An HTTP response as consumed by `validate_api_response`: the status
code, and the result of `json.load` on the body (`Except.error` standing
for a `json.JSONDecodeError` raised by the parse). -/
structure Response where
  code : Nat
  body : Except Unit Json

/-- The mutable state of an `NRTKSync` instance that the sync methods read
and write.  `storyDictonary` and `binPath` are never reset between cycles,
mirroring the class attributes of the source. -/
structure Engine where
  storyDictonary : List (Json × Json)
  binPath : Option String
  metaFileContent : Option Json
  remoteData : Option Json
  metaObject : Option Json

/-- The fresh instance state (the class-attribute defaults with the Meta
file not yet read). -/
def Engine.init : Engine :=
  { storyDictonary := [], binPath := none, metaFileContent := none,
    remoteData := none, metaObject := none }

/-- Lookup in the anchor-to-story dict built by validation (Python dict
keys compared with `==`). -/
def dictLookup (d : List (Json × Json)) (k : Json) : Option Json :=
  match d.find? (fun p => Json.pyEq p.1 k) with
  | some p => some p.2
  | none => none

/-- Python dict insertion for the anchor-to-story dict (replace in place
or append). -/
def dictInsert (d : List (Json × Json)) (k v : Json) : List (Json × Json) :=
  if d.any (fun p => Json.pyEq p.1 k) then
    d.map (fun p => if Json.pyEq p.1 k then (k, v) else p)
  else
    d ++ [(k, v)]

/-- The on-disk state the program manipulates: the content directory
(`www`), the snapshot directories with their archived story files, the
archived Meta files inside snapshots, and the live Meta file. -/
structure FS where
  www : List (String × String)
  bins : List (String × List (String × String))
  binMeta : List (String × Json)
  metaFile : Option Json

/-- A record of one file-system side effect performed by a sync cycle. -/
inductive FSOp where
  | mkBinDir (name : String) : FSOp
  | removeWww (name : String) : FSOp
  | renameWwwToBin (bin : String) (name : String) (content : String) : FSOp
  | writeWww (name : String) (content : String) : FSOp
  | renameMetaToBin (bin : String) (meta : Json) : FSOp
  | writeMetaFile (meta : Json) : FSOp

/-- `os.remove` of a content-directory file. -/
def FS.removeFile (fs : FS) (f : String) : FS :=
  { fs with www := fs.www.filter (fun p => p.1 != f) }

/-- Contents of a snapshot directory (empty when not created). -/
def FS.binFiles (fs : FS) (bin : String) : List (String × String) :=
  (listLookup fs.bins bin).getD []

/-- `os.rename` of a content-directory file into a snapshot directory
(silently replacing an existing target, as `os.rename` does). -/
def FS.moveToBin (fs : FS) (bin : String) (f : String) (c : String) : FS :=
  { fs with
    www := fs.www.filter (fun p => p.1 != f),
    bins := listUpsert fs.bins bin (listUpsert (fs.binFiles bin) f c) }

/-- `open(..., "w").write(...)` of a content-directory file (create or
truncate). -/
def FS.writeWwwFile (fs : FS) (f : String) (c : String) : FS :=
  { fs with www := listUpsert fs.www f c }

/-- `check_dir` of a snapshot directory: create it if absent, no-op when
it already exists. -/
def FS.mkBin (fs : FS) (bin : String) : FS :=
  if fs.bins.any (fun p => p.1 == bin) then fs
  else { fs with bins := fs.bins ++ [(bin, [])] }

/-- Lookup of a live content-directory file. -/
def FS.wwwLookup (fs : FS) (f : String) : Option String :=
  listLookup fs.www f

/-- Lookup of a file inside a snapshot directory. -/
def FS.binLookup (fs : FS) (bin : String) (f : String) : Option String :=
  listLookup (fs.binFiles bin) f

/-- `NRTKSync.read_meta`: reads the local Meta file when present.  The
on-disk file is given as its raw text, and `jsonParse` stands for
`json.load`, which raises `jsonDecodeError` on malformed input (and can
raise `osError` if the read itself fails).  The handler in the source
catches only `OSError`, so every other exception propagates. -/
def read_meta (metaFileDisk : Option String)
    (jsonParse : String → Except PyExn Json) : Except PyExn (Option Json) :=
  match metaFileDisk with
  | none => .ok none
  | some text =>
      match jsonParse text with
      | .ok j => .ok (some j)
      | .error e =>
          match e with
          | .osError => .ok none
          | other => .error other

/-- The required top-level fields checked by `validate_api_response`, in
source order. -/
def themeRequiredFields : List String :=
  ["homepage_url", "stories", "error_page", "entity", "title"]

/-- The required story fields checked by `validate_api_response`, in
source order. -/
def storyRequiredFields : List String :=
  ["canonical_url", "content", "anchor", "updated_at", "title",
   "is_landing", "hash", "uid", "credits"]

/-- The field-presence loop of `validate_api_response`: returns `false` at
the first missing field (`return False` in the source). -/
def checkFields (j : Json) : List String → Except PyExn Bool
  | [] => .ok true
  | f :: rest => do
    let present ← j.hasMember f
    if present then checkFields j rest else .ok false

/-- The story loop of `validate_api_response`: validates each story's
required fields and inserts it into `story_dictonary` keyed by its
`anchor`.  Insertions made before a failing story are kept, exactly as in
the source.  Returns the updated dict and whether validation passed. -/
def processStories (dict : List (Json × Json)) :
    List Json → Except PyExn (List (Json × Json) × Bool)
  | [] => .ok (dict, true)
  | story :: rest => do
    let fieldsOk ← checkFields story storyRequiredFields
    if fieldsOk then do
      let anchor ← story.getItem "anchor"
      if anchor.hashable then
        processStories (dictInsert dict anchor story) rest
      else
        .error (.typeError "unhashable type")
    else
      .ok (dict, false)

/-- Construction of `self.meta_object` (source lines 249-255).  The
subscripts are evaluated in source order, so a falsy document (for which
the field checks were skipped) raises here.  `checksumFn` stands for
`sha256(json.dumps(data, sort_keys=True)).hexdigest()`. -/
def buildMetaObject (checksumFn : Json → String) (data : Json) (now : String) :
    Except PyExn Json := do
  let title ← data.getItem "title"
  let entity ← data.getItem "entity"
  let homepage ← data.getItem "homepage_url"
  .ok (.obj [("checksum", .str (checksumFn data)), ("title", title),
             ("entity", entity), ("homepage_url", homepage),
             ("updated_at", .str now)])

/-- `NRTKSync.validate_api_response`: checks the status code, parses the
body, validates required fields, fills `story_dictonary` and builds
`meta_object`.  Returns the updated engine state and the method's boolean
result; uncaught Python exceptions surface as `Except.error`. -/
def validate_api_response (checksumFn : Json → String) (e : Engine)
    (resp : Response) (now : String) : Except PyExn (Engine × Bool) :=
  if resp.code == 200 then
    match resp.body with
    | .error _ => .ok (e, false)
    | .ok data =>
        let e1 := { e with remoteData := some data }
        if data.truthy then do
          let themeOk ← checkFields data themeRequiredFields
          if themeOk then do
            let stories ← data.getItem "stories"
            let n ← stories.lenOf
            if n > 0 then do
              let items ← stories.iterItems
              match processStories e1.storyDictonary items with
              | .error err => .error err
              | .ok (dict, storiesOk) =>
                let e2 := { e1 with storyDictonary := dict }
                if storiesOk then do
                  let mo ← buildMetaObject checksumFn data now
                  .ok ({ e2 with metaObject := some mo }, true)
                else
                  .ok (e2, false)
            else do
              let mo ← buildMetaObject checksumFn data now
              .ok ({ e1 with metaObject := some mo }, true)
          else
            .ok (e1, false)
        else do
          let mo ← buildMetaObject checksumFn data now
          .ok ({ e1 with metaObject := some mo }, true)
  else
    .ok (e, false)

/-- The change-detection condition of `sync` (source lines 345-346):
`not mfc or 'checksum' not in mfc or mfc['checksum'] != meta_object['checksum']`. -/
def changeDetected (e : Engine) : Except PyExn Bool :=
  match e.metaFileContent with
  | none => .ok true
  | some m =>
      if m.truthy then do
        let hasCk ← m.hasMember "checksum"
        if hasCk then do
          let oldCk ← m.getItem "checksum"
          let newCk ← (e.metaObject.getD .null).getItem "checksum"
          .ok (!(Json.pyEq oldCk newCk))
        else
          .ok true
      else
        .ok true

/-- The snapshot-creation step of `sync` (source lines 349-352): when the
previous Meta has a `checksum`, set `bin_path` to a directory named by it
and create that directory. -/
def snapshotStep (e : Engine) (fs : FS) : Except PyExn (Engine × FS × List FSOp) :=
  match e.metaFileContent with
  | none => .ok (e, fs, [])
  | some m =>
      if m.truthy then do
        let hasCk ← m.hasMember "checksum"
        if hasCk then do
          let ck ← m.getItem "checksum"
          match ck with
          | .str s =>
              .ok ({ e with binPath := some s }, fs.mkBin s,
                   if fs.bins.any (fun p => p.1 == s) then [] else [.mkBinDir s])
          | _ => .error (.typeError "join argument must be str")
        else
          .ok (e, fs, [])
      else
        .ok (e, fs, [])

/-- The compound guard on source lines 282-283: the file is tracked when
the previous Meta is truthy, has a truthy `stories` member, and that
member contains the file name.  Each subexpression can raise. -/
def storyTrackedGuard (meta : Option Json) (file : String) : Except PyExn Bool :=
  match meta with
  | none => .ok false
  | some m =>
      if m.truthy then do
        let hasStories ← m.hasMember "stories"
        if hasStories then do
          let stories ← m.getItem "stories"
          if stories.truthy then
            stories.hasMember file
          else
            .ok false
        else
          .ok false
      else
        .ok false

/-- The per-file body of the `clean_local_storage` loop. -/
def cleanStep (e : Engine) (fs : FS) (file : String) (content : String) :
    Except PyExn (FS × List FSOp) := do
  let tracked ← storyTrackedGuard e.metaFileContent file
  if tracked then
    match e.binPath with
    | some bin =>
        match dictLookup e.storyDictonary (.str file) with
        | some story => do
            let newHash ← story.getItem "hash"
            let m := e.metaFileContent.getD .null
            let stories ← m.getItem "stories"
            let entry ← stories.getItem file
            let oldHash ← entry.getItem "hash"
            if !(Json.pyEq newHash oldHash) then
              .ok (fs.moveToBin bin file content, [.renameWwwToBin bin file content])
            else
              .ok (fs, [])
        | none =>
            .ok (fs.moveToBin bin file content, [.renameWwwToBin bin file content])
    | none => .ok (fs, [])
  else
    .ok (fs.removeFile file, [.removeWww file])

/-- The `clean_local_storage` loop over a directory listing taken before
any modification. -/
def cleanList (e : Engine) (fs : FS) :
    List (String × String) → Except PyExn (FS × List FSOp)
  | [] => .ok (fs, [])
  | (f, c) :: rest =>
    match cleanStep e fs f c with
    | .error err => .error err
    | .ok (fs1, ops1) =>
        match cleanList e fs1 rest with
        | .error err => .error err
        | .ok (fs2, ops2) => .ok (fs2, ops1 ++ ops2)

/-- `NRTKSync.clean_local_storage`: walks the files of the content
directory, deleting untracked files and archiving removed or updated
tracked files into the active snapshot directory. -/
def clean_local_storage (e : Engine) (fs : FS) : Except PyExn (FS × List FSOp) :=
  cleanList e fs fs.www

/-- `NRTKSync.create_sitemap_item`: one `<url>` element; `updated_at` is
sliced to its first 19 characters, which raises for non-sliceable
values. -/
def create_sitemap_item (url : Json) (updated_at : Json) (priority : String) :
    Except PyExn String := do
  let sliced ← updated_at.pySlice19
  .ok ("<url><loc>" ++ url.pyStr ++ "</loc><lastmod>" ++ sliced.pyStr ++
       "+00:00</lastmod><priority>" ++ priority ++ "</priority></url>")

/-- The `sitemap.xml` content assembled by `build_sitemap` around the
concatenated items. -/
def sitemapContent (items : String) : String :=
  "<?xml version=\"1.0\" encoding=\"UTF-8\"?>\n            <urlset xmlns=\"http://www.sitemaps.org/schemas/sitemap/0.9\" \n            xmlns:xsi=\"http://www.w3.org/2001/XMLSchema-instance\" \n            xsi:schemaLocation=\"http://www.sitemaps.org/schemas/sitemap/0.9 \n            http://www.sitemaps.org/schemas/sitemap/0.9/sitemap.xsd\">\n            <!-- Created by Newsroom Toolkit www.newsroomtoolkit.com -->\n                "
  ++ items ++ "\n            </urlset>"

/-- The body of the story loop of `sync_stories` for one story: writes the
story's `content` to a file named by its `anchor`, records the story in
the new Meta's story map, and produces its sitemap item.  Returns the
updated `meta_object`, file system, the emitted write operation, and the
extended sitemap items. -/
def storyStep (mo : Json) (fs : FS) (items : String) (story : Json) :
    Except PyExn (Json × FS × FSOp × String) := do
  let anchor ← story.getItem "anchor"
  let fileName := anchor.pyStr
  let content ← story.getItem "content"
  let contentText ← content.asWriteStr
  let fs1 := fs.writeWwwFile fileName contentText
  let hash ← story.getItem "hash"
  let curl ← story.getItem "canonical_url"
  let upd ← story.getItem "updated_at"
  let key ← anchor.dictKey
  let storiesMap ← mo.getItem "stories"
  let storiesMap1 ← storiesMap.setItem key
    (.obj [("anchor", anchor), ("hash", hash),
           ("canonical_url", curl), ("updated_at", upd)])
  let mo1 ← mo.setItem "stories" storiesMap1
  let priority := if Json.pyEq (.str "index") anchor then "1" else "0.8"
  let item ← create_sitemap_item curl upd priority
  .ok (mo1, fs1, .writeWww fileName contentText, items ++ item)

/-- The story loop of `sync_stories`, iterating `storyStep` over the
remote stories in order. -/
def storiesLoop (mo : Json) (fs : FS) (items : String) :
    List Json → Except PyExn (Json × FS × List FSOp × String)
  | [] => .ok (mo, fs, [], items)
  | story :: rest =>
    match storyStep mo fs items story with
    | .error err => .error err
    | .ok (mo1, fs1, op, items1) =>
        match storiesLoop mo1 fs1 items1 rest with
        | .error err => .error err
        | .ok (mo2, fs2, ops, items2) => .ok (mo2, fs2, op :: ops, items2)

/-- `NRTKSync.sync_stories`: cleans the content directory, resets the new
Meta's story map, writes every remote story, and writes `sitemap.xml`. -/
def sync_stories (e : Engine) (fs : FS) : Except PyExn (Engine × FS × List FSOp) :=
  match clean_local_storage e fs with
  | .error err => .error err
  | .ok (fs1, ops1) =>
    match e.metaObject with
    | none => .error (.typeError "NoneType does not support item assignment")
    | some mo => do
      let mo1 ← mo.setItem "stories" (.obj [])
      match e.remoteData with
      | none => .error (.typeError "NoneType is not subscriptable")
      | some data => do
        let stories ← data.getItem "stories"
        let items ← stories.iterItems
        match storiesLoop mo1 fs1 "" items with
        | .error err => .error err
        | .ok (mo2, fs2, ops2, sitemapItems) =>
          let fs3 := fs2.writeWwwFile "sitemap.xml" (sitemapContent sitemapItems)
          .ok ({ e with metaObject := some mo2 }, fs3,
               ops1 ++ ops2 ++ [.writeWww "sitemap.xml" (sitemapContent sitemapItems)])

/-- `NRTKSync.save_error_page`: writes the remote `error_page` content to
`error.html`.  The `except` clause catches only `OSError`, so a non-string
`error_page` raises a `TypeError` out of the method. -/
def save_error_page (e : Engine) (fs : FS) : Except PyExn (FS × List FSOp × Bool) :=
  match e.remoteData with
  | none => .ok (fs, [], false)
  | some data =>
      if data.truthy then do
        let hasErrorPage ← data.hasMember "error_page"
        if hasErrorPage then do
          let ep ← data.getItem "error_page"
          let text ← ep.asWriteStr
          .ok (fs.writeWwwFile "error.html" text, [.writeWww "error.html" text], true)
        else
          .ok (fs, [], false)
      else
        .ok (fs, [], false)

/-- `NRTKSync.save_meta`: when `meta_object` is truthy, moves the old Meta
file into the active snapshot directory (when both exist) and writes the
new Meta file.  `json.dump` of a JSON-representable object cannot fail, so
the serialization `except` branch is unreachable in the model. -/
def save_meta (e : Engine) (fs : FS) : FS × List FSOp × Bool :=
  match e.metaObject with
  | none => (fs, [], false)
  | some mo =>
      if mo.truthy then
        let (fs1, ops1) : FS × List FSOp :=
          match e.binPath, fs.metaFile with
          | some bin, some oldMeta =>
              let bm := listUpsert fs.binMeta bin oldMeta
              ({ fs with metaFile := none, binMeta := bm },
               [.renameMetaToBin bin oldMeta])
          | _, _ => (fs, [])
        ({ fs1 with metaFile := some mo }, ops1 ++ [.writeMetaFile mo], true)
      else
        (fs, [], false)

/-- `NRTKSync.sync`: one sync cycle.  `fetched` is the result of
`fetch_content` (`none` when the fetch failed with a logged HTTP or URL
error).  Returns the updated engine state, file system, the list of
file-system operations performed, and the method's boolean result. -/
def sync (checksumFn : Json → String) (e : Engine) (fetched : Option Response)
    (now : String) (fs : FS) : Except PyExn (Engine × FS × List FSOp × Bool) :=
  match fetched with
  | none => .ok (e, fs, [], false)
  | some resp =>
    match validate_api_response checksumFn e resp now with
    | .error err => .error err
    | .ok (e1, valid) =>
      if valid then
        match changeDetected e1 with
        | .error err => .error err
        | .ok changed =>
          if changed then
            match snapshotStep e1 fs with
            | .error err => .error err
            | .ok (e2, fs1, opsA) =>
              match sync_stories e2 fs1 with
              | .error err => .error err
              | .ok (e3, fs2, opsB) =>
                match save_error_page e3 fs2 with
                | .error err => .error err
                | .ok (fs3, opsC, _) =>
                  match save_meta e3 fs3 with
                  | (fs4, opsD, _) =>
                    .ok (e3, fs4, opsA ++ opsB ++ opsC ++ opsD, false)
          else
            .ok (e1, fs, [], false)
      else
        .ok (e1, fs, [], false)

/-! Concrete instances: small concrete documents, Meta records and file systems used to evaluate
the model on explicit inputs. -/

/-- A remote story with all nine required fields. -/
def storyW (anchor hash content : String) : Json :=
  .obj [("canonical_url", .str ("http://site/" ++ anchor)),
        ("content", .str content),
        ("anchor", .str anchor),
        ("updated_at", .str "2025-06-01T12:00:00Z"),
        ("title", .str "title"),
        ("is_landing", .bool false),
        ("hash", .str hash),
        ("uid", .str "uid"),
        ("credits", .str "credits")]

/-- A remote document with all required top-level fields. -/
def docW (stories : List Json) (errorPage : String) : Json :=
  .obj [("homepage_url", .str "http://site/"),
        ("stories", .arr stories),
        ("error_page", .str errorPage),
        ("entity", .str "entity"),
        ("title", .str "title")]

/-- A concrete stand-in for the SHA-256 checksum function: any function of
the parsed document works for the theorems, which never rely on collision
behavior.  The rendering is injective enough to distinguish the test
documents. -/
def ckW : Json → String := Json.pyRepr

/-- A Meta record as `save_meta` writes it, with given checksum and story
entries. -/
def metaW (checksum : String) (stories : List (String × Json)) : Json :=
  .obj [("checksum", .str checksum), ("title", .str "title"),
        ("entity", .str "entity"), ("homepage_url", .str "http://site/"),
        ("updated_at", .str "2025-05-01T00:00:00Z"), ("stories", .obj stories)]

/-- A Meta story entry with the given anchor and hash. -/
def metaEntryW (anchor hash : String) : Json :=
  .obj [("anchor", .str anchor), ("hash", .str hash),
        ("canonical_url", .str ("http://site/" ++ anchor)),
        ("updated_at", .str "2025-05-01T00:00:00Z")]

/-- Engine state extracted from a validation result. -/
def engineOfValidate (r : Except PyExn (Engine × Bool)) : Engine :=
  match r with
  | .ok (e, _) => e
  | .error _ => Engine.init

/-- Engine state extracted from a sync result. -/
def engineOfSync (r : Except PyExn (Engine × FS × List FSOp × Bool)) : Engine :=
  match r with
  | .ok (e, _, _, _) => e
  | .error _ => Engine.init

/-- File system extracted from a sync result. -/
def fsOfSync (r : Except PyExn (Engine × FS × List FSOp × Bool)) : FS :=
  match r with
  | .ok (_, fs, _, _) => fs
  | .error _ => { www := [], bins := [], binMeta := [], metaFile := none }

/-- Operation list extracted from a sync result. -/
def opsOfSync (r : Except PyExn (Engine × FS × List FSOp × Bool)) : List FSOp :=
  match r with
  | .ok (_, _, ops, _) => ops
  | .error _ => []

/-- Boolean verdict extracted from a sync result. -/
def retOfSync (r : Except PyExn (Engine × FS × List FSOp × Bool)) : Bool :=
  match r with
  | .ok (_, _, _, b) => b
  | .error _ => true

/-- The empty file system. -/
def fsEmpty : FS := { www := [], bins := [], binMeta := [], metaFile := none }

/-- Document used by the unchanged-cycle witness. -/
def docC1 : Json := docW [storyW "alpha" "h1" "AAA"] "ERR"

/-- Previous Meta whose checksum matches `docC1`'s computed checksum. -/
def metaC1 : Json := metaW (ckW docC1) [("alpha", metaEntryW "alpha" "h1")]

/-- Engine that has read `metaC1`. -/
def engC1 : Engine := { Engine.init with metaFileContent := some metaC1 }

/-- Content directory for the unchanged-cycle witness. -/
def fsC1 : FS :=
  { www := [("alpha", "AAA")], bins := [], binMeta := [], metaFile := some metaC1 }

/-- Engine state after validating `docC1` on `engC1`. -/
def engC1v : Engine :=
  engineOfValidate (validate_api_response ckW engC1 ⟨200, .ok docC1⟩ "NOW")

/-- A full changed cycle on a fresh instance (scenario A of the spec). -/
def runC9 : Except PyExn (Engine × FS × List FSOp × Bool) :=
  sync ckW Engine.init (some ⟨200, .ok docC1⟩) "NOW" fsEmpty

/-- Engine state after the successful cycle `runC9`. -/
def engC9 : Engine := engineOfSync runC9

/-- File system after the successful cycle `runC9`. -/
def fsC9 : FS := fsOfSync runC9

/-- Operations performed by the successful cycle `runC9`. -/
def opsC9 : List FSOp := opsOfSync runC9

/-- Verdict returned by the successful cycle `runC9`. -/
def retC9 : Bool := retOfSync runC9

/-- Content directory with a foreign file next to a tracked story. -/
def fsC5 : FS :=
  { www := [("junk.txt", "J"), ("alpha", "AAA")], bins := [], binMeta := [],
    metaFile := some metaC1 }

/-- Reconciliation of `fsC5` against `metaC1` with no snapshot active. -/
def runC5 : Except PyExn (FS × List FSOp) := clean_local_storage engC1 fsC5

/-- File system after `runC5`. -/
def fsC5r : FS :=
  match runC5 with
  | .ok (fs, _) => fs
  | .error _ => fsEmpty

/-- Operations of `runC5`. -/
def opsC5 : List FSOp :=
  match runC5 with
  | .ok (_, ops) => ops
  | .error _ => []

/-- Engine for a cycle in which the tracked story `alpha` is absent from
the remote set and a snapshot is active. -/
def engC4 : Engine :=
  { Engine.init with metaFileContent := some metaC1, binPath := some "OLDBIN" }

/-- Content directory holding the tracked story `alpha`. -/
def fsC4 : FS :=
  { www := [("alpha", "AAA")], bins := [("OLDBIN", [])], binMeta := [],
    metaFile := some metaC1 }

/-- Reconciliation of `fsC4` against `metaC1` with an empty story dict. -/
def runC4 : Except PyExn (FS × List FSOp) := clean_local_storage engC4 fsC4

/-- File system after `runC4`. -/
def fsC4r : FS :=
  match runC4 with
  | .ok (fs, _) => fs
  | .error _ => fsEmpty

/-- Operations of `runC4`. -/
def opsC4 : List FSOp :=
  match runC4 with
  | .ok (_, ops) => ops
  | .error _ => []

/-- Engine state as validation leaves it before `sync_stories`, for the
story-writing witness. -/
def engC6 : Engine :=
  { Engine.init with
    remoteData := some docC1
    metaObject := some (metaW (ckW docC1) []) }

/-- Story-writing pass over the empty content directory. -/
def runC6 : Except PyExn (Engine × FS × List FSOp) := sync_stories engC6 fsEmpty

/-- Engine after `runC6`. -/
def engC6r : Engine :=
  match runC6 with
  | .ok (e, _, _) => e
  | .error _ => Engine.init

/-- File system after `runC6`. -/
def fsC6r : FS :=
  match runC6 with
  | .ok (_, fs, _) => fs
  | .error _ => fsEmpty

/-- Operations of `runC6`. -/
def opsC6 : List FSOp :=
  match runC6 with
  | .ok (_, _, ops) => ops
  | .error _ => []

/-- Remote document updating story `alpha` to hash `h2`. -/
def docC3 : Json := docW [storyW "alpha" "h2" "NEW"] "ERRPAGE"

/-- Previous Meta tracking `alpha` at hash `h1` under checksum `OLDCK`. -/
def metaC3 : Json := metaW "OLDCK" [("alpha", metaEntryW "alpha" "h1")]

/-- Engine that has read `metaC3`. -/
def engC3 : Engine := { Engine.init with metaFileContent := some metaC3 }

/-- Content directory holding the old version of `alpha`. -/
def fsC3 : FS :=
  { www := [("alpha", "OLD")], bins := [], binMeta := [], metaFile := some metaC3 }

/-- Engine state after validating `docC3` on `engC3`. -/
def engC3v : Engine :=
  engineOfValidate (validate_api_response ckW engC3 ⟨200, .ok docC3⟩ "NOW")

/-- The full updated-story cycle. -/
def runC3 : Except PyExn (Engine × FS × List FSOp × Bool) :=
  sync ckW engC3 (some ⟨200, .ok docC3⟩) "NOW" fsC3

/-- Remote document updating a story anchored `error.html`. -/
def docC3x : Json := docW [storyW "error.html" "h2" "NEWBODY"] "ERRPAGE"

/-- Previous Meta tracking the anchor `error.html` at hash `h1`. -/
def metaC3x : Json := metaW "OLDCK" [("error.html", metaEntryW "error.html" "h1")]

/-- Engine that has read `metaC3x`. -/
def engC3x : Engine := { Engine.init with metaFileContent := some metaC3x }

/-- Content directory holding the old file for anchor `error.html`. -/
def fsC3x : FS :=
  { www := [("error.html", "OLDBODY")], bins := [], binMeta := [],
    metaFile := some metaC3x }

/-- The full cycle updating the story anchored `error.html`. -/
def runC3x : Except PyExn (Engine × FS × List FSOp × Bool) :=
  sync ckW engC3x (some ⟨200, .ok docC3x⟩) "NOW" fsC3x

/-- Engine after the updated-story cycle `runC3`. -/
def engC3s : Engine := engineOfSync runC3

/-- File system after the updated-story cycle `runC3`. -/
def fsC3s : FS := fsOfSync runC3

/-- Operations of the updated-story cycle `runC3`. -/
def opsC3s : List FSOp := opsOfSync runC3

/-- Verdict of the updated-story cycle `runC3`. -/
def retC3s : Bool := retOfSync runC3

/-- First-cycle document of the two-cycle run: stories `alpha`, `beta`. -/
def docD1 : Json := docW [storyW "alpha" "h1" "AAA", storyW "beta" "hb" "BBB"] "ERR1"

/-- Second-cycle document of the two-cycle run: `alpha` removed, `beta`
updated. -/
def docD2 : Json := docW [storyW "beta" "hb2" "BBB2"] "ERR2"

/-- First cycle of the two-cycle run, on a fresh instance. -/
def runD1 : Except PyExn (Engine × FS × List FSOp × Bool) :=
  sync ckW Engine.init (some ⟨200, .ok docD1⟩) "NOW1" fsEmpty

/-- Engine after the first cycle. -/
def engD1 : Engine := engineOfSync runD1

/-- File system after the first cycle. -/
def fsD1 : FS := fsOfSync runD1

/-- Engine entering the second cycle: the infinity loop re-reads the Meta
file the first cycle wrote, everything else persists. -/
def engDIn : Engine := { engD1 with metaFileContent := fsD1.metaFile }

/-- Engine after the second cycle's validation. -/
def engD2v : Engine :=
  engineOfValidate (validate_api_response ckW engDIn ⟨200, .ok docD2⟩ "NOW2")

/-- Second cycle of the two-cycle run. -/
def runD2 : Except PyExn (Engine × FS × List FSOp × Bool) :=
  sync ckW engDIn (some ⟨200, .ok docD2⟩) "NOW2" fsD1

/-- Engine after the second cycle. -/
def engD2 : Engine := engineOfSync runD2

/-- File system after the second cycle. -/
def fsD2 : FS := fsOfSync runD2

/-- Operations of the second cycle. -/
def opsD2 : List FSOp := opsOfSync runD2

/-- Verdict of the second cycle. -/
def retD2 : Bool := retOfSync runD2

/-- The Meta record the first cycle wrote. -/
def metaD2 : Json :=
  match fsD1.metaFile with
  | some m => m
  | none => .null

/-- The story map of `metaD2`. -/
def mstD2 : Json :=
  match metaD2.getItem "stories" with
  | .ok j => j
  | .error _ => .null

/-- The entry of `metaD2` for the anchor `alpha`. -/
def entryD2 : Json :=
  match mstD2.getItem "alpha" with
  | .ok j => j
  | .error _ => .null

/-! Basic lemmas about lookups and upserts. -/

@[simp] theorem exceptBind_ok {α β ε : Type} (a : α) (f : α → Except ε β) :
    (Except.ok a >>= f) = f a := rfl

@[simp] theorem exceptBind_error {α β ε : Type} (err : ε) (f : α → Except ε β) :
    ((Except.error err : Except ε α) >>= f) = Except.error err := rfl

theorem strBeq_false_of_ne {a b : String} (h : a ≠ b) : (a == b) = false := by
  cases hab : a == b
  · rfl
  · exact absurd (beq_iff_eq.mp hab) h

@[simp] theorem listLookup_nil {α : Type} (g : String) : listLookup ([] : List (String × α)) g = none := rfl

theorem listLookup_cons_self {α : Type} (p : String × α) (l : List (String × α))
    (g : String) (h : p.1 = g) : listLookup (p :: l) g = some p.2 := by
  simp [listLookup, List.find?, h]

theorem listLookup_cons_other {α : Type} (p : String × α) (l : List (String × α))
    (g : String) (h : p.1 ≠ g) : listLookup (p :: l) g = listLookup l g := by
  simp [listLookup, List.find?, strBeq_false_of_ne h]

theorem listLookup_map_replace_self {α : Type} (l : List (String × α)) (k : String) (v : α)
    (hany : (l.any fun p => p.1 == k) = true) :
    listLookup (l.map fun p => if p.1 == k then (k, v) else p) k = some v := by
  induction l with
  | nil => simp at hany
  | cons p rest ih =>
    by_cases hp : (p.1 == k) = true
    · simp only [List.map_cons, hp, if_true]
      exact listLookup_cons_self _ _ _ rfl
    · simp only [List.any_cons, hp, Bool.false_or] at hany
      simp only [List.map_cons, hp, if_false, Bool.false_eq_true]
      rw [listLookup_cons_other _ _ _ (fun hc => by simp [hc] at hp)]
      exact ih hany

theorem listLookup_map_replace_other {α : Type} (l : List (String × α)) (k : String) (v : α) (g : String)
    (h : g ≠ k) :
    listLookup (l.map fun p => if p.1 == k then (k, v) else p) g = listLookup l g := by
  induction l with
  | nil => simp
  | cons p rest ih =>
    by_cases hp : (p.1 == k) = true
    · simp only [List.map_cons, hp, if_true]
      rw [listLookup_cons_other _ _ _ (fun hc => h hc.symm),
          listLookup_cons_other _ _ _
            (fun hc => h (((beq_iff_eq.mp hp) ▸ hc).symm))]
      exact ih
    · simp only [List.map_cons, hp, if_false, Bool.false_eq_true]
      by_cases hpg : p.1 = g
      · rw [listLookup_cons_self _ _ _ hpg, listLookup_cons_self _ _ _ hpg]
      · rw [listLookup_cons_other _ _ _ hpg, listLookup_cons_other _ _ _ hpg]
        exact ih

theorem listLookup_append_single_self_of_none {α : Type} (l : List (String × α)) (k : String) (v : α)
    (h : (l.any fun p => p.1 == k) = false) :
    listLookup (l ++ [(k, v)]) k = some v := by
  induction l with
  | nil => exact listLookup_cons_self _ _ _ rfl
  | cons p rest ih =>
    simp only [List.any_cons, Bool.or_eq_false_iff] at h
    rw [List.cons_append, listLookup_cons_other _ _ _ (fun hc => by simp [hc] at h)]
    exact ih h.2

theorem listLookup_append_single_other {α : Type} (l : List (String × α)) (k : String) (v : α) (g : String)
    (h : g ≠ k) : listLookup (l ++ [(k, v)]) g = listLookup l g := by
  induction l with
  | nil => simp [listLookup, List.find?, strBeq_false_of_ne (fun hc => h hc.symm)]
  | cons p rest ih =>
    by_cases hpg : p.1 = g
    · rw [List.cons_append, listLookup_cons_self _ _ _ hpg, listLookup_cons_self _ _ _ hpg]
    · rw [List.cons_append, listLookup_cons_other _ _ _ hpg, listLookup_cons_other _ _ _ hpg]
      exact ih

theorem listLookup_upsert_self {α : Type} (l : List (String × α)) (k : String) (v : α) :
    listLookup (listUpsert l k v) k = some v := by
  unfold listUpsert
  by_cases hany : (l.any fun p => p.1 == k) = true
  · simp only [hany, if_true]
    exact listLookup_map_replace_self l k v hany
  · simp only [hany, if_false, Bool.false_eq_true]
    exact listLookup_append_single_self_of_none l k v (by
      cases hc : l.any fun p => p.1 == k
      · rfl
      · exact absurd hc hany)

theorem listLookup_upsert_other {α : Type} (l : List (String × α)) (k : String) (v : α) (g : String)
    (h : g ≠ k) : listLookup (listUpsert l k v) g = listLookup l g := by
  unfold listUpsert
  by_cases hany : (l.any fun p => p.1 == k) = true
  · simp only [hany, if_true]
    exact listLookup_map_replace_other l k v g h
  · simp only [hany, if_false, Bool.false_eq_true]
    exact listLookup_append_single_other l k v g h

theorem listLookup_filter_self {α : Type} (l : List (String × α)) (k : String) :
    listLookup (l.filter (fun p => p.1 != k)) k = none := by
  induction l with
  | nil => simp
  | cons p rest ih =>
    by_cases hp : (p.1 == k) = true
    · simpa [List.filter_cons, bne, hp] using ih
    · simp only [List.filter_cons, bne, hp, Bool.not_false, if_true]
      rw [listLookup_cons_other _ _ _ (fun hc => by simp [hc] at hp)]
      exact ih

theorem listLookup_filter_other {α : Type} (l : List (String × α)) (k g : String)
    (h : g ≠ k) : listLookup (l.filter (fun p => p.1 != k)) g = listLookup l g := by
  induction l with
  | nil => simp
  | cons p rest ih =>
    by_cases hp : (p.1 == k) = true
    · have hpg : p.1 ≠ g := fun hc => h ((beq_iff_eq.mp hp) ▸ hc).symm
      simp only [List.filter_cons, bne, hp, Bool.not_true, if_false, Bool.false_eq_true]
      rw [listLookup_cons_other _ _ _ hpg]
      exact ih
    · simp only [List.filter_cons, bne, hp, Bool.not_false, if_true]
      by_cases hpg : p.1 = g
      · rw [listLookup_cons_self _ _ _ hpg, listLookup_cons_self _ _ _ hpg]
      · rw [listLookup_cons_other _ _ _ hpg, listLookup_cons_other _ _ _ hpg]
        exact ih

/-! File-system operation lemmas. -/

theorem wwwLookup_writeWwwFile_self (fs : FS) (f c : String) :
    (fs.writeWwwFile f c).wwwLookup f = some c :=
  listLookup_upsert_self fs.www f c

theorem wwwLookup_writeWwwFile_other (fs : FS) (f c g : String) (h : g ≠ f) :
    (fs.writeWwwFile f c).wwwLookup g = fs.wwwLookup g :=
  listLookup_upsert_other fs.www f c g h

@[simp] theorem writeWwwFile_bins (fs : FS) (f c : String) :
    (fs.writeWwwFile f c).bins = fs.bins := rfl

@[simp] theorem writeWwwFile_binMeta (fs : FS) (f c : String) :
    (fs.writeWwwFile f c).binMeta = fs.binMeta := rfl

@[simp] theorem writeWwwFile_metaFile (fs : FS) (f c : String) :
    (fs.writeWwwFile f c).metaFile = fs.metaFile := rfl

theorem wwwLookup_removeFile_self (fs : FS) (f : String) :
    (fs.removeFile f).wwwLookup f = none :=
  listLookup_filter_self fs.www f

theorem wwwLookup_removeFile_other (fs : FS) (f g : String) (h : g ≠ f) :
    (fs.removeFile f).wwwLookup g = fs.wwwLookup g :=
  listLookup_filter_other fs.www f g h

@[simp] theorem removeFile_bins (fs : FS) (f : String) :
    (fs.removeFile f).bins = fs.bins := rfl

@[simp] theorem removeFile_binMeta (fs : FS) (f : String) :
    (fs.removeFile f).binMeta = fs.binMeta := rfl

@[simp] theorem removeFile_metaFile (fs : FS) (f : String) :
    (fs.removeFile f).metaFile = fs.metaFile := rfl

theorem binLookup_congr_bins {fs fs' : FS} (h : fs'.bins = fs.bins) (b g : String) :
    fs'.binLookup b g = fs.binLookup b g := by
  unfold FS.binLookup FS.binFiles
  rw [h]

theorem wwwLookup_congr_www {fs fs' : FS} (h : fs'.www = fs.www) (g : String) :
    fs'.wwwLookup g = fs.wwwLookup g := by
  unfold FS.wwwLookup
  rw [h]

theorem wwwLookup_moveToBin_self (fs : FS) (bin f c : String) :
    (fs.moveToBin bin f c).wwwLookup f = none :=
  listLookup_filter_self fs.www f

theorem wwwLookup_moveToBin_other (fs : FS) (bin f c g : String) (h : g ≠ f) :
    (fs.moveToBin bin f c).wwwLookup g = fs.wwwLookup g :=
  listLookup_filter_other fs.www f g h

theorem binLookup_moveToBin_self (fs : FS) (bin f c : String) :
    (fs.moveToBin bin f c).binLookup bin f = some c := by
  unfold FS.binLookup FS.binFiles FS.moveToBin
  simp only
  rw [listLookup_upsert_self]
  simp only [Option.getD_some]
  exact listLookup_upsert_self _ f c

theorem binLookup_moveToBin_other (fs : FS) (bin f c b g : String) (h : g ≠ f) :
    (fs.moveToBin bin f c).binLookup b g = fs.binLookup b g := by
  unfold FS.binLookup FS.binFiles FS.moveToBin
  simp only
  by_cases hb : b = bin
  · subst hb
    rw [listLookup_upsert_self]
    simp only [Option.getD_some]
    exact listLookup_upsert_other _ f c g h
  · rw [listLookup_upsert_other _ _ _ _ hb]

@[simp] theorem moveToBin_metaFile (fs : FS) (bin f c : String) :
    (fs.moveToBin bin f c).metaFile = fs.metaFile := rfl

@[simp] theorem moveToBin_binMeta (fs : FS) (bin f c : String) :
    (fs.moveToBin bin f c).binMeta = fs.binMeta := rfl

theorem listLookup_eq_none_of_any_false {α : Type} (l : List (String × α)) (k : String)
    (h : (l.any fun p => p.1 == k) = false) : listLookup l k = none := by
  induction l with
  | nil => simp
  | cons p rest ih =>
    simp only [List.any_cons, Bool.or_eq_false_iff] at h
    rw [listLookup_cons_other _ _ _ (fun hc => by simp [hc] at h)]
    exact ih h.2

theorem mkBin_www (fs : FS) (b : String) : (fs.mkBin b).www = fs.www := by
  unfold FS.mkBin
  split <;> rfl

theorem mkBin_metaFile (fs : FS) (b : String) : (fs.mkBin b).metaFile = fs.metaFile := by
  unfold FS.mkBin
  split <;> rfl

theorem mkBin_binMeta (fs : FS) (b : String) : (fs.mkBin b).binMeta = fs.binMeta := by
  unfold FS.mkBin
  split <;> rfl

theorem binLookup_mkBin (fs : FS) (s b g : String) :
    (fs.mkBin s).binLookup b g = fs.binLookup b g := by
  unfold FS.mkBin FS.binLookup FS.binFiles
  split
  · rfl
  · next hany =>
    simp only
    by_cases hb : b = s
    · subst hb
      rw [listLookup_eq_none_of_any_false fs.bins b (by
            cases hc : fs.bins.any fun p => p.1 == b
            · rfl
            · exact absurd hc hany),
          listLookup_append_single_self_of_none fs.bins b [] (by
            cases hc : fs.bins.any fun p => p.1 == b
            · rfl
            · exact absurd hc hany)]
      simp
    · rw [listLookup_append_single_other _ _ _ _ hb]

/-! Reconciliation lemmas for `clean_local_storage`. -/

/-- `cleanStep` either leaves the file system unchanged, deletes the file,
or moves it into the active snapshot directory. -/
theorem cleanStep_cases (e : Engine) (fs : FS) (f c : String) (fs' : FS) (ops : List FSOp)
    (h : cleanStep e fs f c = .ok (fs', ops)) :
    (fs' = fs ∧ ops = [])
    ∨ (fs' = fs.removeFile f ∧ ops = [.removeWww f])
    ∨ (∃ b, e.binPath = some b ∧ fs' = fs.moveToBin b f c ∧ ops = [.renameWwwToBin b f c]) := by
  unfold cleanStep at h
  cases hg : storyTrackedGuard e.metaFileContent f with
  | error err => rw [hg] at h; simp at h
  | ok tracked =>
    rw [hg] at h
    simp only [exceptBind_ok] at h
    cases tracked with
    | false =>
      simp only [Bool.false_eq_true, if_false, Except.ok.injEq, Prod.mk.injEq] at h
      exact Or.inr (Or.inl ⟨h.1.symm, h.2.symm⟩)
    | true =>
      simp only [if_true] at h
      cases hb : e.binPath with
      | none =>
        simp only [hb, Except.ok.injEq, Prod.mk.injEq] at h
        exact Or.inl ⟨h.1.symm, h.2.symm⟩
      | some bin =>
        simp only [hb] at h
        cases hd : dictLookup e.storyDictonary (.str f) with
        | none =>
          simp only [hd, Except.ok.injEq, Prod.mk.injEq] at h
          exact Or.inr (Or.inr ⟨bin, rfl, h.1.symm, h.2.symm⟩)
        | some story =>
          simp only [hd] at h
          cases hnh : story.getItem "hash" with
          | error err => simp only [hnh, exceptBind_error] at h; simp at h
          | ok newHash =>
            simp only [hnh, exceptBind_ok] at h
            cases hst : (e.metaFileContent.getD .null).getItem "stories" with
            | error err => simp only [hst, exceptBind_error] at h; simp at h
            | ok stories =>
              simp only [hst, exceptBind_ok] at h
              cases hen : stories.getItem f with
              | error err => simp only [hen, exceptBind_error] at h; simp at h
              | ok entry =>
                simp only [hen, exceptBind_ok] at h
                cases hoh : entry.getItem "hash" with
                | error err => simp only [hoh, exceptBind_error] at h; simp at h
                | ok oldHash =>
                  simp only [hoh, exceptBind_ok] at h
                  cases hne : Json.pyEq newHash oldHash with
                  | true =>
                    simp only [hne, Bool.not_true, Bool.false_eq_true, if_false,
                               Except.ok.injEq, Prod.mk.injEq] at h
                    exact Or.inl ⟨h.1.symm, h.2.symm⟩
                  | false =>
                    simp only [hne, Bool.not_false, if_true,
                               Except.ok.injEq, Prod.mk.injEq] at h
                    exact Or.inr (Or.inr ⟨bin, rfl, h.1.symm, h.2.symm⟩)

theorem cleanStep_www_none (e : Engine) (fs : FS) (f c : String) (fs' : FS)
    (ops : List FSOp) (g : String) (h : cleanStep e fs f c = .ok (fs', ops))
    (hg : fs.wwwLookup g = none) : fs'.wwwLookup g = none := by
  rcases cleanStep_cases e fs f c fs' ops h with ⟨h1, _⟩ | ⟨h1, _⟩ | ⟨b, _, h1, _⟩
  · rw [h1]; exact hg
  · rw [h1]
    by_cases hgf : g = f
    · subst hgf; exact wwwLookup_removeFile_self fs g
    · rw [wwwLookup_removeFile_other fs f g hgf]; exact hg
  · rw [h1]
    by_cases hgf : g = f
    · subst hgf; exact wwwLookup_moveToBin_self fs b g c
    · rw [wwwLookup_moveToBin_other fs b f c g hgf]; exact hg

theorem cleanStep_www_other (e : Engine) (fs : FS) (f c : String) (fs' : FS)
    (ops : List FSOp) (g : String) (h : cleanStep e fs f c = .ok (fs', ops))
    (hgf : g ≠ f) : fs'.wwwLookup g = fs.wwwLookup g := by
  rcases cleanStep_cases e fs f c fs' ops h with ⟨h1, _⟩ | ⟨h1, _⟩ | ⟨b, _, h1, _⟩
  · rw [h1]
  · rw [h1]; exact wwwLookup_removeFile_other fs f g hgf
  · rw [h1]; exact wwwLookup_moveToBin_other fs b f c g hgf

theorem cleanStep_bins_other (e : Engine) (fs : FS) (f c : String) (fs' : FS)
    (ops : List FSOp) (b g : String) (h : cleanStep e fs f c = .ok (fs', ops))
    (hgf : g ≠ f) : fs'.binLookup b g = fs.binLookup b g := by
  rcases cleanStep_cases e fs f c fs' ops h with ⟨h1, _⟩ | ⟨h1, _⟩ | ⟨bb, _, h1, _⟩
  · rw [h1]
  · rw [h1]; exact binLookup_congr_bins (removeFile_bins fs f) b g
  · rw [h1]; exact binLookup_moveToBin_other fs bb f c b g hgf

theorem cleanStep_ops_names (e : Engine) (fs : FS) (f c : String) (fs' : FS)
    (ops : List FSOp) (h : cleanStep e fs f c = .ok (fs', ops)) :
    ∀ op ∈ ops, op = .removeWww f ∨ ∃ b, op = .renameWwwToBin b f c := by
  rcases cleanStep_cases e fs f c fs' ops h with ⟨_, h2⟩ | ⟨_, h2⟩ | ⟨b, _, _, h2⟩ <;> subst h2
  · intro op hop; simp at hop
  · intro op hop
    simp only [List.mem_singleton] at hop
    exact Or.inl hop
  · intro op hop
    simp only [List.mem_singleton] at hop
    exact Or.inr ⟨b, hop⟩

theorem cleanStep_meta_preserved (e : Engine) (fs : FS) (f c : String) (fs' : FS)
    (ops : List FSOp) (h : cleanStep e fs f c = .ok (fs', ops)) :
    fs'.metaFile = fs.metaFile ∧ fs'.binMeta = fs.binMeta := by
  rcases cleanStep_cases e fs f c fs' ops h with ⟨h1, _⟩ | ⟨h1, _⟩ | ⟨b, _, h1, _⟩ <;>
    subst h1 <;> exact ⟨rfl, rfl⟩

/-- Inversion of one iteration of the `clean_local_storage` loop. -/
theorem cleanList_cons_inv (e : Engine) (fs : FS) (f c : String)
    (rest : List (String × String)) (fs' : FS) (ops : List FSOp)
    (h : cleanList e fs ((f, c) :: rest) = .ok (fs', ops)) :
    ∃ fs1 ops1 ops2, cleanStep e fs f c = .ok (fs1, ops1) ∧
      cleanList e fs1 rest = .ok (fs', ops2) ∧ ops = ops1 ++ ops2 := by
  unfold cleanList at h
  cases h1 : cleanStep e fs f c with
  | error err => simp only [h1] at h; exact absurd h (by simp)
  | ok r1 =>
    obtain ⟨fs1, ops1⟩ := r1
    simp only [h1] at h
    cases h2 : cleanList e fs1 rest with
    | error err => simp only [h2] at h; exact absurd h (by simp)
    | ok r2 =>
      obtain ⟨fs2, ops2⟩ := r2
      simp only [h2, Except.ok.injEq, Prod.mk.injEq] at h
      exact ⟨fs1, ops1, ops2, rfl, h.1 ▸ h2, h.2.symm⟩

/-- The loop never makes a file reappear: a name absent from the content
directory stays absent. -/
theorem cleanList_www_none (e : Engine) (l : List (String × String)) :
    ∀ (fs fs' : FS) (ops : List FSOp) (a : String),
      cleanList e fs l = .ok (fs', ops) → fs.wwwLookup a = none →
      fs'.wwwLookup a = none := by
  induction l with
  | nil =>
    intro fs fs' ops a h ha
    unfold cleanList at h
    simp only [Except.ok.injEq, Prod.mk.injEq] at h
    rw [← h.1]
    exact ha
  | cons p rest ih =>
    intro fs fs' ops a h ha
    obtain ⟨fs1, ops1, ops2, h1, h2, _⟩ := cleanList_cons_inv e fs p.1 p.2 rest fs' ops (by
      cases p; exact h)
    exact ih fs1 fs' ops2 a h2 (cleanStep_www_none e fs p.1 p.2 fs1 ops1 a h1 ha)

/-- Processing entries whose names all differ from `a` touches neither the
live file `a`, nor any snapshot entry named `a`, and emits no operation
named `a`. -/
theorem cleanList_other (e : Engine) (l : List (String × String)) :
    ∀ (fs fs' : FS) (ops : List FSOp) (a : String),
      (∀ p ∈ l, p.1 ≠ a) → cleanList e fs l = .ok (fs', ops) →
      fs'.wwwLookup a = fs.wwwLookup a ∧
      (∀ b, fs'.binLookup b a = fs.binLookup b a) ∧
      (FSOp.removeWww a ∉ ops) ∧
      (∀ b c', FSOp.renameWwwToBin b a c' ∉ ops) := by
  induction l with
  | nil =>
    intro fs fs' ops a _ h
    unfold cleanList at h
    simp only [Except.ok.injEq, Prod.mk.injEq] at h
    rw [← h.1, ← h.2]
    exact ⟨rfl, fun _ => rfl, by simp, by simp⟩
  | cons p rest ih =>
    intro fs fs' ops a hne h
    obtain ⟨fs1, ops1, ops2, h1, h2, hops⟩ := cleanList_cons_inv e fs p.1 p.2 rest fs' ops (by
      cases p; exact h)
    have hpa : a ≠ p.1 := fun hc => hne p (by simp) hc.symm
    have step1 := cleanStep_www_other e fs p.1 p.2 fs1 ops1 a h1 hpa
    have step2 := cleanStep_bins_other e fs p.1 p.2 fs1 ops1
    have stepops := cleanStep_ops_names e fs p.1 p.2 fs1 ops1 h1
    obtain ⟨r1, r2, r3, r4⟩ := ih fs1 fs' ops2 a (fun q hq => hne q (by simp [hq])) h2
    subst hops
    refine ⟨r1.trans step1, fun b => (r2 b).trans (step2 b a h1 hpa), ?_, ?_⟩
    · intro hmem
      rcases List.mem_append.mp hmem with hm | hm
      · rcases stepops _ hm with hop | ⟨b, hop⟩
        · exact hpa (by injection hop)
        · exact absurd hop (by intro hc; cases hc)
      · exact r3 hm
    · intro b c' hmem
      rcases List.mem_append.mp hmem with hm | hm
      · rcases stepops _ hm with hop | ⟨b', hop⟩
        · exact absurd hop (by intro hc; cases hc)
        · injection hop with hb ha hc
          exact hpa ha
      · exact r4 b c' hm

/-- Master lemma for untracked files: when the per-file decision for name
`a` is deletion (for any file-system state and content), a listing
containing `a` ends with `a` deleted, never archived. -/
theorem cleanList_remove (e : Engine) (l : List (String × String)) :
    ∀ (fs fs' : FS) (ops : List FSOp) (a : String),
      (∀ (fs0 : FS) (c' : String),
        cleanStep e fs0 a c' = .ok (fs0.removeFile a, [.removeWww a])) →
      cleanList e fs l = .ok (fs', ops) → (∃ ca, (a, ca) ∈ l) →
      fs'.wwwLookup a = none ∧ FSOp.removeWww a ∈ ops ∧
      (∀ b c', FSOp.renameWwwToBin b a c' ∉ ops) ∧
      (∀ b, fs'.binLookup b a = fs.binLookup b a) := by
  induction l with
  | nil =>
    intro fs fs' ops a _ _ hmem
    obtain ⟨ca, hca⟩ := hmem
    simp at hca
  | cons p rest ih =>
    intro fs fs' ops a hstep h hmem
    obtain ⟨fs1, ops1, ops2, h1, h2, hops⟩ := cleanList_cons_inv e fs p.1 p.2 rest fs' ops (by
      cases p; exact h)
    by_cases hpa : p.1 = a
    · have h1' : cleanStep e fs p.1 p.2 = .ok (fs.removeFile a, [.removeWww a]) := by
        rw [hpa]; exact hstep fs p.2
      rw [h1'] at h1
      simp only [Except.ok.injEq, Prod.mk.injEq] at h1
      subst hops
      have hw1 : fs1.wwwLookup a = none := by
        rw [← h1.1]; exact wwwLookup_removeFile_self fs a
      constructor
      · exact cleanList_www_none e rest fs1 fs' ops2 a h2 hw1
      constructor
      · rw [← h1.2]; simp
      constructor
      · intro b c' hc
        rcases List.mem_append.mp hc with hm | hm
        · rw [← h1.2] at hm
          simp at hm
        · by_cases hra : ∃ cb, (a, cb) ∈ rest
          · exact (ih fs1 fs' ops2 a hstep h2 hra).2.2.1 b c' hm
          · rcases (cleanList_other e rest fs1 fs' ops2 a (by
              intro q hq hqa
              exact hra ⟨q.2, by rw [← hqa]; simpa using hq⟩) h2).2.2.2 b c' hm
      · intro b
        by_cases hra : ∃ cb, (a, cb) ∈ rest
        · rw [(ih fs1 fs' ops2 a hstep h2 hra).2.2.2 b, ← h1.1]
          exact binLookup_congr_bins (removeFile_bins fs a) b a
        · rw [(cleanList_other e rest fs1 fs' ops2 a (by
            intro q hq hqa
            exact hra ⟨q.2, by rw [← hqa]; simpa using hq⟩) h2).2.1 b, ← h1.1]
          exact binLookup_congr_bins (removeFile_bins fs a) b a
    · obtain ⟨ca, hca⟩ := hmem
      have hcar : (a, ca) ∈ rest := by
        rcases List.mem_cons.mp hca with hh | hh
        · exact absurd (congrArg Prod.fst hh).symm hpa
        · exact hh
      obtain ⟨r1, r2, r3, r4⟩ := ih fs1 fs' ops2 a hstep h2 ⟨ca, hcar⟩
      subst hops
      have hnp : a ≠ p.1 := fun hc => hpa hc.symm
      refine ⟨r1, by simp [r2], ?_, ?_⟩
      · intro b c' hc
        rcases List.mem_append.mp hc with hm | hm
        · rcases cleanStep_ops_names e fs p.1 p.2 fs1 ops1 h1 _ hm with hop | ⟨b', hop⟩
          · cases hop
          · injection hop with hb ha hcc
            exact hnp ha
        · exact r3 b c' hm
      · intro b
        rw [r4 b]
        exact cleanStep_bins_other e fs p.1 p.2 fs1 ops1 b a h1 hnp

/-- Master lemma for archived files: when the per-file decision for name
`a` with content `ca` is a move into snapshot `bin` (for any file-system
state), a duplicate-free listing containing `(a, ca)` ends with `a`
absent from the content directory and present in the snapshot. -/
theorem cleanList_move (e : Engine) (l : List (String × String)) :
    ∀ (fs fs' : FS) (ops : List FSOp) (a ca bin : String),
      (∀ fs0 : FS,
        cleanStep e fs0 a ca = .ok (fs0.moveToBin bin a ca, [.renameWwwToBin bin a ca])) →
      cleanList e fs l = .ok (fs', ops) → (a, ca) ∈ l →
      (l.map Prod.fst).Nodup →
      fs'.wwwLookup a = none ∧ fs'.binLookup bin a = some ca ∧
      FSOp.renameWwwToBin bin a ca ∈ ops := by
  induction l with
  | nil =>
    intro fs fs' ops a ca bin _ _ hmem _
    simp at hmem
  | cons p rest ih =>
    intro fs fs' ops a ca bin hstep h hmem hnd
    obtain ⟨fs1, ops1, ops2, h1, h2, hops⟩ := cleanList_cons_inv e fs p.1 p.2 rest fs' ops (by
      cases p; exact h)
    simp only [List.map_cons, List.nodup_cons] at hnd
    rcases List.mem_cons.mp hmem with hh | hh
    · have hp1 : p.1 = a := (congrArg Prod.fst hh).symm
      have hp2 : p.2 = ca := (congrArg Prod.snd hh).symm
      have h1' : cleanStep e fs p.1 p.2 = .ok (fs.moveToBin bin a ca, [.renameWwwToBin bin a ca]) := by
        rw [hp1, hp2]; exact hstep fs
      rw [h1'] at h1
      simp only [Except.ok.injEq, Prod.mk.injEq] at h1
      subst hops
      have hrest : ∀ q ∈ rest, q.1 ≠ a := by
        intro q hq hqa
        exact hnd.1 (by rw [hp1, ← hqa]; exact List.mem_map_of_mem Prod.fst hq)
      obtain ⟨r1, r2, _, _⟩ := cleanList_other e rest fs1 fs' ops2 a hrest h2
      refine ⟨?_, ?_, ?_⟩
      · rw [r1, ← h1.1]
        exact wwwLookup_moveToBin_self fs bin a ca
      · rw [r2 bin, ← h1.1]
        exact binLookup_moveToBin_self fs bin a ca
      · rw [← h1.2]; simp
    · have hnp : a ≠ p.1 := by
        intro hc
        exact hnd.1 (by rw [← hc]; exact List.mem_map_of_mem Prod.fst hh)
      obtain ⟨r1, r2, r3⟩ := ih fs1 fs' ops2 a ca bin hstep h2 hh hnd.2
      subst hops
      exact ⟨r1, r2, by simp [r3]⟩

/-- An untracked file is always deleted, whatever the file-system state. -/
theorem cleanStep_untracked (e : Engine) (a : String)
    (hg : storyTrackedGuard e.metaFileContent a = .ok false) :
    ∀ (fs0 : FS) (c' : String),
      cleanStep e fs0 a c' = .ok (fs0.removeFile a, [.removeWww a]) := by
  intro fs0 c'
  unfold cleanStep
  simp [hg]

/-- A tracked file absent from the story dict is always moved into the
active snapshot directory. -/
theorem cleanStep_removedStory (e : Engine) (a bin : String)
    (hg : storyTrackedGuard e.metaFileContent a = .ok true)
    (hb : e.binPath = some bin)
    (hd : dictLookup e.storyDictonary (.str a) = none) :
    ∀ (fs0 : FS) (c' : String),
      cleanStep e fs0 a c' = .ok (fs0.moveToBin bin a c', [.renameWwwToBin bin a c']) := by
  intro fs0 c'
  unfold cleanStep
  simp [hg, hb, hd]

/-- A tracked file whose new hash differs from the recorded hash is always
moved into the active snapshot directory. -/
theorem cleanStep_updatedStory (e : Engine) (a bin : String)
    (story newHash stories entry oldHash : Json)
    (hg : storyTrackedGuard e.metaFileContent a = .ok true)
    (hb : e.binPath = some bin)
    (hd : dictLookup e.storyDictonary (.str a) = some story)
    (hnh : story.getItem "hash" = .ok newHash)
    (hst : (e.metaFileContent.getD .null).getItem "stories" = .ok stories)
    (hen : stories.getItem a = .ok entry)
    (hoh : entry.getItem "hash" = .ok oldHash)
    (hne : Json.pyEq newHash oldHash = false) :
    ∀ (fs0 : FS) (c' : String),
      cleanStep e fs0 a c' = .ok (fs0.moveToBin bin a c', [.renameWwwToBin bin a c']) := by
  intro fs0 c'
  unfold cleanStep
  simp [hg, hb, hd, hnh, hst, hen, hoh, hne]

/-- A tracked file whose new hash equals the recorded hash is left
untouched. -/
theorem cleanStep_unchangedStory (e : Engine) (a bin : String)
    (story newHash stories entry oldHash : Json)
    (hg : storyTrackedGuard e.metaFileContent a = .ok true)
    (hb : e.binPath = some bin)
    (hd : dictLookup e.storyDictonary (.str a) = some story)
    (hnh : story.getItem "hash" = .ok newHash)
    (hst : (e.metaFileContent.getD .null).getItem "stories" = .ok stories)
    (hen : stories.getItem a = .ok entry)
    (hoh : entry.getItem "hash" = .ok oldHash)
    (hne : Json.pyEq newHash oldHash = true) :
    ∀ (fs0 : FS) (c' : String), cleanStep e fs0 a c' = .ok (fs0, []) := by
  intro fs0 c'
  unfold cleanStep
  simp [hg, hb, hd, hnh, hst, hen, hoh, hne]

/-- Master lemma for kept files: when the per-file decision for name `a`
is a no-op, the loop leaves the live file `a` exactly as it was and never
archives it. -/
theorem cleanList_keep (e : Engine) (l : List (String × String)) :
    ∀ (fs fs' : FS) (ops : List FSOp) (a : String),
      (∀ (fs0 : FS) (c' : String), cleanStep e fs0 a c' = .ok (fs0, [])) →
      cleanList e fs l = .ok (fs', ops) →
      fs'.wwwLookup a = fs.wwwLookup a ∧
      (FSOp.removeWww a ∉ ops) ∧
      (∀ b c', FSOp.renameWwwToBin b a c' ∉ ops) ∧
      (∀ b, fs'.binLookup b a = fs.binLookup b a) := by
  induction l with
  | nil =>
    intro fs fs' ops a _ h
    unfold cleanList at h
    simp only [Except.ok.injEq, Prod.mk.injEq] at h
    rw [← h.1, ← h.2]
    exact ⟨rfl, by simp, by simp, fun _ => rfl⟩
  | cons p rest ih =>
    intro fs fs' ops a hstep h
    obtain ⟨fs1, ops1, ops2, h1, h2, hops⟩ := cleanList_cons_inv e fs p.1 p.2 rest fs' ops (by
      cases p; exact h)
    obtain ⟨r1, r2, r3, r4⟩ := ih fs1 fs' ops2 a hstep h2
    subst hops
    by_cases hpa : p.1 = a
    · have h1' : cleanStep e fs p.1 p.2 = .ok (fs, []) := by
        rw [hpa]; exact hstep fs p.2
      rw [h1'] at h1
      simp only [Except.ok.injEq, Prod.mk.injEq] at h1
      rw [← h1.1] at r1 r4
      rw [← h1.2]
      exact ⟨r1, by simpa using r2, by simpa using r3, r4⟩
    · have hnp : a ≠ p.1 := fun hc => hpa hc.symm
      refine ⟨r1.trans (cleanStep_www_other e fs p.1 p.2 fs1 ops1 a h1 hnp), ?_, ?_, ?_⟩
      · intro hc
        rcases List.mem_append.mp hc with hm | hm
        · rcases cleanStep_ops_names e fs p.1 p.2 fs1 ops1 h1 _ hm with hop | ⟨b', hop⟩
          · injection hop with ha
            exact hnp ha
          · cases hop
        · exact r2 hm
      · intro b c' hc
        rcases List.mem_append.mp hc with hm | hm
        · rcases cleanStep_ops_names e fs p.1 p.2 fs1 ops1 h1 _ hm with hop | ⟨b', hop⟩
          · cases hop
          · injection hop with hb ha hcc
            exact hnp ha
        · exact r3 b c' hm
      · intro b
        rw [r4 b]
        exact cleanStep_bins_other e fs p.1 p.2 fs1 ops1 b a h1 hnp

/-! Story-writing lemmas for `sync_stories`. -/

/-- Every successful `storyStep` writes exactly the story's `content`
under the file name rendered from its `anchor`, and touches nothing else
of the file system. -/
theorem storyStep_shape (mo : Json) (fs : FS) (items : String) (story : Json)
    (mo1 : Json) (fs1 : FS) (op : FSOp) (items1 : String)
    (h : storyStep mo fs items story = .ok (mo1, fs1, op, items1)) :
    ∃ an ct cs, story.getItem "anchor" = .ok an ∧
      story.getItem "content" = .ok ct ∧ ct.asWriteStr = .ok cs ∧
      op = .writeWww an.pyStr cs ∧ fs1 = fs.writeWwwFile an.pyStr cs := by
  unfold storyStep at h
  cases han : story.getItem "anchor" with
  | error err => simp only [han, exceptBind_error] at h; exact absurd h (by simp)
  | ok an =>
    simp only [han, exceptBind_ok] at h
    cases hct : story.getItem "content" with
    | error err => simp only [hct, exceptBind_error] at h; exact absurd h (by simp)
    | ok ct =>
      simp only [hct, exceptBind_ok] at h
      cases hcs : ct.asWriteStr with
      | error err => simp only [hcs, exceptBind_error] at h; exact absurd h (by simp)
      | ok cs =>
        simp only [hcs, exceptBind_ok] at h
        refine ⟨an, ct, cs, rfl, rfl, hcs, ?_, ?_⟩ <;>
        · cases hhs : story.getItem "hash" with
          | error err => simp only [hhs, exceptBind_error] at h; exact absurd h (by simp)
          | ok hash =>
            simp only [hhs, exceptBind_ok] at h
            cases hcu : story.getItem "canonical_url" with
            | error err => simp only [hcu, exceptBind_error] at h; exact absurd h (by simp)
            | ok curl =>
              simp only [hcu, exceptBind_ok] at h
              cases hup : story.getItem "updated_at" with
              | error err => simp only [hup, exceptBind_error] at h; exact absurd h (by simp)
              | ok upd =>
                simp only [hup, exceptBind_ok] at h
                cases hk : an.dictKey with
                | error err => simp only [hk, exceptBind_error] at h; exact absurd h (by simp)
                | ok key =>
                  simp only [hk, exceptBind_ok] at h
                  cases hsm : mo.getItem "stories" with
                  | error err => simp only [hsm, exceptBind_error] at h; exact absurd h (by simp)
                  | ok storiesMap =>
                    simp only [hsm, exceptBind_ok] at h
                    cases hs1 : storiesMap.setItem key
                        (.obj [("anchor", an), ("hash", hash),
                               ("canonical_url", curl), ("updated_at", upd)]) with
                    | error err => simp only [hs1, exceptBind_error] at h; exact absurd h (by simp)
                    | ok storiesMap1 =>
                      simp only [hs1, exceptBind_ok] at h
                      cases hm1 : mo.setItem "stories" storiesMap1 with
                      | error err => simp only [hm1, exceptBind_error] at h; exact absurd h (by simp)
                      | ok moNew =>
                        simp only [hm1, exceptBind_ok] at h
                        cases hit : create_sitemap_item curl upd
                            (if Json.pyEq (.str "index") an then "1" else "0.8") with
                        | error err => simp only [hit, exceptBind_error] at h; exact absurd h (by simp)
                        | ok item =>
                          simp only [hit, exceptBind_ok, Except.ok.injEq, Prod.mk.injEq] at h
                          first
                          | exact h.2.2.1.symm
                          | exact h.2.1.symm

/-- Inversion of one iteration of the story loop. -/
theorem storiesLoop_cons_inv (mo : Json) (fs : FS) (items : String) (story : Json)
    (rest : List Json) (mo' : Json) (fs' : FS) (ops : List FSOp) (items' : String)
    (h : storiesLoop mo fs items (story :: rest) = .ok (mo', fs', ops, items')) :
    ∃ mo1 fs1 op items1 ops2,
      storyStep mo fs items story = .ok (mo1, fs1, op, items1) ∧
      storiesLoop mo1 fs1 items1 rest = .ok (mo', fs', ops2, items') ∧
      ops = op :: ops2 := by
  unfold storiesLoop at h
  cases h1 : storyStep mo fs items story with
  | error err => simp only [h1] at h; exact absurd h (by simp)
  | ok r1 =>
    obtain ⟨mo1, fs1, op, items1⟩ := r1
    simp only [h1] at h
    cases h2 : storiesLoop mo1 fs1 items1 rest with
    | error err => simp only [h2] at h; exact absurd h (by simp)
    | ok r2 =>
      obtain ⟨mo2, fs2, ops2, items2⟩ := r2
      simp only [h2, Except.ok.injEq, Prod.mk.injEq] at h
      exact ⟨mo1, fs1, op, items1, ops2, rfl,
        by rw [h2, h.1, h.2.1, h.2.2.2], h.2.2.1.symm⟩

/-- The story loop only writes content-directory files: snapshots and the
Meta file are untouched. -/
theorem storiesLoop_fsShape (ss : List Json) :
    ∀ (mo : Json) (fs : FS) (items : String) (mo' : Json) (fs' : FS)
      (ops : List FSOp) (items' : String),
      storiesLoop mo fs items ss = .ok (mo', fs', ops, items') →
      fs'.bins = fs.bins ∧ fs'.binMeta = fs.binMeta ∧ fs'.metaFile = fs.metaFile := by
  induction ss with
  | nil =>
    intro mo fs items mo' fs' ops items' h
    unfold storiesLoop at h
    simp only [Except.ok.injEq, Prod.mk.injEq] at h
    rw [← h.2.1]
    exact ⟨rfl, rfl, rfl⟩
  | cons story rest ih =>
    intro mo fs items mo' fs' ops items' h
    obtain ⟨mo1, fs1, op, items1, ops2, h1, h2, _⟩ :=
      storiesLoop_cons_inv mo fs items story rest mo' fs' ops items' h
    obtain ⟨an, ct, cs, _, _, _, _, hfs1⟩ :=
      storyStep_shape mo fs items story mo1 fs1 op items1 h1
    obtain ⟨r1, r2, r3⟩ := ih mo1 fs1 items1 mo' fs' ops2 items' h2
    subst hfs1
    exact ⟨r1, r2, r3⟩

/-- Every story of the list has its write operation in the loop's
operation list. -/
theorem storiesLoop_writes (ss : List Json) :
    ∀ (mo : Json) (fs : FS) (items : String) (mo' : Json) (fs' : FS)
      (ops : List FSOp) (items' : String) (s : Json) (an ct : Json) (cs : String),
      storiesLoop mo fs items ss = .ok (mo', fs', ops, items') →
      s ∈ ss → s.getItem "anchor" = .ok an → s.getItem "content" = .ok ct →
      ct.asWriteStr = .ok cs →
      FSOp.writeWww an.pyStr cs ∈ ops := by
  induction ss with
  | nil =>
    intro mo fs items mo' fs' ops items' s an ct cs _ hmem
    simp at hmem
  | cons story rest ih =>
    intro mo fs items mo' fs' ops items' s an ct cs h hmem han hct hcs
    obtain ⟨mo1, fs1, op, items1, ops2, h1, h2, hops⟩ :=
      storiesLoop_cons_inv mo fs items story rest mo' fs' ops items' h
    subst hops
    rcases List.mem_cons.mp hmem with hh | hh
    · subst hh
      obtain ⟨an', ct', cs', han', hct', hcs', hop, _⟩ :=
        storyStep_shape mo fs items s mo1 fs1 op items1 h1
      rw [han'] at han
      rw [hct'] at hct
      injection han with han2
      injection hct with hct2
      subst han2
      subst hct2
      rw [hcs'] at hcs
      injection hcs with hcs2
      subst hcs2
      rw [hop]
      exact List.mem_cons_self _ _
    · exact List.mem_cons_of_mem _ (ih mo1 fs1 items1 mo' fs' ops2 items' s an ct cs h2 hh han hct hcs)

/-- Stories whose rendered anchor differs from `a` never touch the live
file `a`. -/
theorem storiesLoop_other (ss : List Json) :
    ∀ (mo : Json) (fs : FS) (items : String) (mo' : Json) (fs' : FS)
      (ops : List FSOp) (items' : String) (a : String),
      (∀ t ∈ ss, ∀ an, t.getItem "anchor" = .ok an → an.pyStr ≠ a) →
      storiesLoop mo fs items ss = .ok (mo', fs', ops, items') →
      fs'.wwwLookup a = fs.wwwLookup a := by
  induction ss with
  | nil =>
    intro mo fs items mo' fs' ops items' a _ h
    unfold storiesLoop at h
    simp only [Except.ok.injEq, Prod.mk.injEq] at h
    rw [← h.2.1]
  | cons story rest ih =>
    intro mo fs items mo' fs' ops items' a hne h
    obtain ⟨mo1, fs1, op, items1, ops2, h1, h2, _⟩ :=
      storiesLoop_cons_inv mo fs items story rest mo' fs' ops items' h
    obtain ⟨an, ct, cs, han, _, _, _, hfs1⟩ :=
      storyStep_shape mo fs items story mo1 fs1 op items1 h1
    have r := ih mo1 fs1 items1 mo' fs' ops2 items' a
      (fun t ht an2 han2 => hne t (by simp [ht]) an2 han2) h2
    rw [r, hfs1]
    exact wwwLookup_writeWwwFile_other fs an.pyStr cs a
      (fun hc => hne story (by simp) an han hc.symm)

/-- After the loop, the live file `a` holds `c2` provided some story of
the list is named `a` and every story named `a` carries content `c2`. -/
theorem storiesLoop_last (ss : List Json) :
    ∀ (mo : Json) (fs : FS) (items : String) (mo' : Json) (fs' : FS)
      (ops : List FSOp) (items' : String) (a c2 : String),
      (∀ t ∈ ss, ∀ an, t.getItem "anchor" = .ok an → an.pyStr = a →
        t.getItem "content" = .ok (.str c2)) →
      (∃ t, t ∈ ss ∧ ∃ an, t.getItem "anchor" = .ok an ∧ an.pyStr = a) →
      storiesLoop mo fs items ss = .ok (mo', fs', ops, items') →
      fs'.wwwLookup a = some c2 := by
  induction ss with
  | nil =>
    intro mo fs items mo' fs' ops items' a c2 _ hex _
    obtain ⟨t, ht, _⟩ := hex
    simp at ht
  | cons story rest ih =>
    intro mo fs items mo' fs' ops items' a c2 hall hex h
    obtain ⟨mo1, fs1, op, items1, ops2, h1, h2, _⟩ :=
      storiesLoop_cons_inv mo fs items story rest mo' fs' ops items' h
    obtain ⟨an, ct, cs, han, hct, hcs, _, hfs1⟩ :=
      storyStep_shape mo fs items story mo1 fs1 op items1 h1
    by_cases hexr : ∃ t, t ∈ rest ∧ ∃ an2, t.getItem "anchor" = .ok an2 ∧ an2.pyStr = a
    · exact ih mo1 fs1 items1 mo' fs' ops2 items' a c2
        (fun t ht an2 han2 hpa => hall t (by simp [ht]) an2 han2 hpa) hexr h2
    · have hra : ∀ t ∈ rest, ∀ an2, t.getItem "anchor" = .ok an2 → an2.pyStr ≠ a := by
        intro t ht an2 han2 hpa
        exact hexr ⟨t, ht, an2, han2, hpa⟩
      rw [storiesLoop_other rest mo1 fs1 items1 mo' fs' ops2 items' a hra h2]
      have hsa : an.pyStr = a := by
        obtain ⟨t, ht, an2, han2, hpa2⟩ := hex
        rcases List.mem_cons.mp ht with hh | hh
        · subst hh
          rw [han] at han2
          injection han2 with he
          rw [← he] at hpa2
          exact hpa2
        · exact absurd hpa2 (hra t hh an2 han2)
      have hc : ct = .str c2 := by
        have := hall story (by simp) an han hsa
        rw [hct] at this
        injection this
      subst hc
      injection hcs with hcs2
      rw [hfs1, hsa, ← hcs2]
      exact wwwLookup_writeWwwFile_self fs a c2

/-! Validation lemmas. -/

theorem pyEq_str_right (x : Json) (s : String) (h : Json.pyEq x (.str s) = true) :
    x = .str s := by
  cases x <;> simp [Json.pyEq] at h
  rw [h]

theorem pyEq_str_left (s : String) (x : Json) (h : Json.pyEq (.str s) x = true) :
    x = .str s := by
  cases x <;> simp [Json.pyEq] at h
  rw [h]

@[simp] theorem pyEq_str_str (s t : String) :
    Json.pyEq (.str s) (.str t) = (s == t) := by
  simp [Json.pyEq]

theorem dictLookup_map_replace (d : List (Json × Json)) (an v : Json) (a : String)
    (hkey : ∀ p : Json × Json, Json.pyEq p.1 an = true → Json.pyEq p.1 (.str a) = false) :
    dictLookup (d.map fun p => if Json.pyEq p.1 an then (an, v) else p) (.str a)
      = dictLookup d (.str a) := by
  induction d with
  | nil => simp [dictLookup]
  | cons p rest ih =>
    by_cases hp : (Json.pyEq p.1 an) = true
    · have hfa : Json.pyEq p.1 (.str a) = false := hkey p hp
      have hana : Json.pyEq an (.str a) = false := by
        cases hc : Json.pyEq an (.str a)
        · rfl
        · have h1 : an = .str a := pyEq_str_right an a hc
          have hfa2 := hkey p hp
          rw [h1] at hp
          rw [hp] at hfa2
          exact hfa2
      simp only [List.map_cons, hp, if_true]
      simp only [dictLookup, List.find?, hana, hfa] at ih ⊢
      exact ih
    · simp only [List.map_cons, hp, if_false, Bool.false_eq_true]
      cases hqa : Json.pyEq p.1 (.str a) with
      | true => simp [dictLookup, List.find?, hqa]
      | false =>
        simp only [dictLookup, List.find?, hqa] at ih ⊢
        exact ih

theorem dictLookup_append_other (d : List (Json × Json)) (an v : Json) (a : String)
    (h : Json.pyEq an (.str a) = false) :
    dictLookup (d ++ [(an, v)]) (.str a) = dictLookup d (.str a) := by
  induction d with
  | nil => simp [dictLookup, List.find?, h]
  | cons p rest ih =>
    cases hqa : Json.pyEq p.1 (.str a) with
    | true => simp [dictLookup, List.find?, hqa]
    | false =>
      simp only [List.cons_append, dictLookup, List.find?, hqa] at ih ⊢
      exact ih

/-- Inserting a story under an anchor that is not the string `a` does not
change the dict's entry for `a`. -/
theorem dictLookup_insert_other (d : List (Json × Json)) (an v : Json) (a : String)
    (h : Json.pyEq an (.str a) = false) :
    dictLookup (dictInsert d an v) (.str a) = dictLookup d (.str a) := by
  have hkey : ∀ p : Json × Json, Json.pyEq p.1 an = true → Json.pyEq p.1 (.str a) = false := by
    intro p hp
    cases hc : Json.pyEq p.1 (.str a)
    · rfl
    · have h1 : p.1 = .str a := pyEq_str_right p.1 a hc
      rw [h1] at hp
      have h2 : an = .str a := pyEq_str_left a an hp
      rw [h2] at h
      simp at h
  unfold dictInsert
  by_cases hany : (d.any fun p => Json.pyEq p.1 an) = true
  · simp only [hany, if_true]
    exact dictLookup_map_replace d an v a hkey
  · simp only [hany, if_false, Bool.false_eq_true]
    exact dictLookup_append_other d an v a h

/-- The story-validation loop never disturbs the dict entry of an anchor
string that none of the processed stories carries. -/
theorem processStories_preserves (ss : List Json) :
    ∀ (dict dict' : List (Json × Json)) (b : Bool) (a : String),
      (∀ t ∈ ss, ∀ an, t.getItem "anchor" = .ok an → Json.pyEq an (.str a) = false) →
      processStories dict ss = .ok (dict', b) →
      dictLookup dict' (.str a) = dictLookup dict (.str a) := by
  induction ss with
  | nil =>
    intro dict dict' b a _ h
    unfold processStories at h
    simp only [Except.ok.injEq, Prod.mk.injEq] at h
    rw [← h.1]
  | cons story rest ih =>
    intro dict dict' b a hne h
    unfold processStories at h
    cases hcf : checkFields story storyRequiredFields with
    | error err => simp only [hcf, exceptBind_error] at h; exact absurd h (by simp)
    | ok fieldsOk =>
      simp only [hcf, exceptBind_ok] at h
      cases fieldsOk with
      | false =>
        simp only [Bool.false_eq_true, if_false, Except.ok.injEq, Prod.mk.injEq] at h
        rw [← h.1]
      | true =>
        simp only [if_true] at h
        cases han : story.getItem "anchor" with
        | error err => simp only [han, exceptBind_error] at h; exact absurd h (by simp)
        | ok anchor =>
          simp only [han, exceptBind_ok] at h
          cases hh : anchor.hashable with
          | false =>
            simp only [hh, Bool.false_eq_true, if_false] at h
            exact absurd h (by simp)
          | true =>
            simp only [hh, if_true] at h
            rw [ih (dictInsert dict anchor story) dict' b a
              (fun t ht an2 han2 => hne t (by simp [ht]) an2 han2) h]
            exact dictLookup_insert_other dict anchor story a
              (hne story (by simp) anchor han)

/-- The Meta object built by validation records the checksum computed from
the fetched document as its first field. -/
theorem buildMetaObject_checksum (ck : Json → String) (data : Json) (now : String)
    (mo : Json) (h : buildMetaObject ck data now = .ok mo) :
    mo.getItem "checksum" = .ok (.str (ck data)) := by
  unfold buildMetaObject at h
  cases ht : data.getItem "title" with
  | error err => simp only [ht, exceptBind_error] at h; exact absurd h (by simp)
  | ok title =>
    simp only [ht, exceptBind_ok] at h
    cases he : data.getItem "entity" with
    | error err => simp only [he, exceptBind_error] at h; exact absurd h (by simp)
    | ok entity =>
      simp only [he, exceptBind_ok] at h
      cases hh : data.getItem "homepage_url" with
      | error err => simp only [hh, exceptBind_error] at h; exact absurd h (by simp)
      | ok homepage =>
        simp only [hh, exceptBind_ok, Except.ok.injEq] at h
        rw [← h]
        simp [Json.getItem, List.find?]

/-- Shape of a successful `validate_api_response`: the Meta-file fields of
the engine are untouched, the story dict either stays or is extended by
`processStories` over the fetched stories, and a `true` verdict comes with
a Meta object built from the fetched document. -/
theorem validate_ok_shape (ck : Json → String) (e : Engine) (resp : Response)
    (now : String) (e1 : Engine) (b : Bool)
    (h : validate_api_response ck e resp now = .ok (e1, b)) :
    e1.metaFileContent = e.metaFileContent ∧
    e1.binPath = e.binPath ∧
    (e1.storyDictonary = e.storyDictonary ∨
      ∃ data sj items dict bb, resp.body = .ok data ∧ data.getItem "stories" = .ok sj ∧
        sj.iterItems = .ok items ∧ processStories e.storyDictonary items = .ok (dict, bb) ∧
        e1.storyDictonary = dict) ∧
    (b = true → ∃ data mo, resp.body = .ok data ∧ buildMetaObject ck data now = .ok mo ∧
        e1.metaObject = some mo ∧ e1.remoteData = some data) := by
  unfold validate_api_response at h
  cases hcode : resp.code == 200 with
  | false =>
    simp only [hcode, Bool.false_eq_true, if_false, Except.ok.injEq, Prod.mk.injEq] at h
    rw [← h.1, ← h.2]
    exact ⟨rfl, rfl, Or.inl rfl, by simp⟩
  | true =>
    simp only [hcode, if_true] at h
    cases hbody : resp.body with
    | error u =>
      simp only [hbody, Except.ok.injEq, Prod.mk.injEq] at h
      rw [← h.1, ← h.2]
      exact ⟨rfl, rfl, Or.inl rfl, by simp⟩
    | ok data =>
      simp only [hbody] at h
      cases htr : data.truthy with
      | false =>
        simp only [htr, Bool.false_eq_true, if_false] at h
        cases hbm : buildMetaObject ck data now with
        | error err => simp only [hbm, exceptBind_error] at h; exact absurd h (by simp)
        | ok mo =>
          simp only [hbm, exceptBind_ok, Except.ok.injEq, Prod.mk.injEq] at h
          rw [← h.1, ← h.2]
          exact ⟨rfl, rfl, Or.inl rfl, fun _ => ⟨data, mo, rfl, hbm, rfl, rfl⟩⟩
      | true =>
        simp only [htr, if_true] at h
        cases hcf : checkFields data themeRequiredFields with
        | error err => simp only [hcf, exceptBind_error] at h; exact absurd h (by simp)
        | ok themeOk =>
          simp only [hcf, exceptBind_ok] at h
          cases themeOk with
          | false =>
            simp only [Bool.false_eq_true, if_false, Except.ok.injEq, Prod.mk.injEq] at h
            rw [← h.1, ← h.2]
            exact ⟨rfl, rfl, Or.inl rfl, by simp⟩
          | true =>
            simp only [if_true] at h
            cases hst : data.getItem "stories" with
            | error err => simp only [hst, exceptBind_error] at h; exact absurd h (by simp)
            | ok sj =>
              simp only [hst, exceptBind_ok] at h
              cases hlen : sj.lenOf with
              | error err => simp only [hlen, exceptBind_error] at h; exact absurd h (by simp)
              | ok n =>
                simp only [hlen, exceptBind_ok] at h
                by_cases hn : n > 0
                · simp only [hn, if_true] at h
                  cases hit : sj.iterItems with
                  | error err => simp only [hit, exceptBind_error] at h; exact absurd h (by simp)
                  | ok items =>
                    simp only [hit, exceptBind_ok] at h
                    cases hps : processStories e.storyDictonary items with
                    | error err =>
                      simp only [hps] at h
                      exact absurd h (by simp)
                    | ok r =>
                      obtain ⟨dict, storiesOk⟩ := r
                      simp only [hps] at h
                      cases storiesOk with
                      | false =>
                        simp only [Bool.false_eq_true, if_false,
                                   Except.ok.injEq, Prod.mk.injEq] at h
                        rw [← h.1, ← h.2]
                        exact ⟨rfl, rfl,
                          Or.inr ⟨data, sj, items, dict, false, rfl, hst, hit, hps, rfl⟩,
                          by simp⟩
                      | true =>
                        simp only [if_true] at h
                        cases hbm : buildMetaObject ck data now with
                        | error err =>
                          simp only [hbm, exceptBind_error] at h
                          exact absurd h (by simp)
                        | ok mo =>
                          simp only [hbm, exceptBind_ok,
                                     Except.ok.injEq, Prod.mk.injEq] at h
                          rw [← h.1, ← h.2]
                          exact ⟨rfl, rfl,
                            Or.inr ⟨data, sj, items, dict, true, rfl, hst, hit, hps, rfl⟩,
                            fun _ => ⟨data, mo, rfl, hbm, rfl, rfl⟩⟩
                · simp only [hn, if_false] at h
                  cases hbm : buildMetaObject ck data now with
                  | error err =>
                    simp only [hbm, exceptBind_error] at h
                    exact absurd h (by simp)
                  | ok mo =>
                    simp only [hbm, exceptBind_ok, Except.ok.injEq, Prod.mk.injEq] at h
                    rw [← h.1, ← h.2]
                    exact ⟨rfl, rfl, Or.inl rfl, fun _ => ⟨data, mo, rfl, hbm, rfl, rfl⟩⟩

/-! Sync-cycle decomposition lemmas. -/

theorem truthy_of_getItem_ok (j v : Json) (k : String) (h : j.getItem k = .ok v) :
    j.truthy = true := by
  cases j with
  | obj fields =>
    cases fields with
    | nil => simp [Json.getItem, List.find?] at h
    | cons p rest => simp [Json.truthy]
  | null => simp [Json.getItem] at h
  | bool b => simp [Json.getItem] at h
  | num n => simp [Json.getItem] at h
  | str s => simp [Json.getItem] at h
  | arr xs => simp [Json.getItem] at h

/-- `save_error_page` either writes `error.html` or does nothing. -/
theorem save_error_page_shape (e : Engine) (fs : FS) (fs' : FS) (ops : List FSOp)
    (b : Bool) (h : save_error_page e fs = .ok (fs', ops, b)) :
    (fs' = fs ∧ ops = []) ∨
    (∃ txt, fs' = fs.writeWwwFile "error.html" txt ∧ ops = [.writeWww "error.html" txt]) := by
  unfold save_error_page at h
  cases hrd : e.remoteData with
  | none =>
    simp only [hrd, Except.ok.injEq, Prod.mk.injEq] at h
    exact Or.inl ⟨h.1.symm, h.2.1.symm⟩
  | some data =>
    simp only [hrd] at h
    cases htr : data.truthy with
    | false =>
      simp only [htr, Bool.false_eq_true, if_false, Except.ok.injEq, Prod.mk.injEq] at h
      exact Or.inl ⟨h.1.symm, h.2.1.symm⟩
    | true =>
      simp only [htr, if_true] at h
      cases hhm : data.hasMember "error_page" with
      | error err => simp only [hhm, exceptBind_error] at h; exact absurd h (by simp)
      | ok hasEp =>
        simp only [hhm, exceptBind_ok] at h
        cases hasEp with
        | false =>
          simp only [Bool.false_eq_true, if_false, Except.ok.injEq, Prod.mk.injEq] at h
          exact Or.inl ⟨h.1.symm, h.2.1.symm⟩
        | true =>
          simp only [if_true] at h
          cases hep : data.getItem "error_page" with
          | error err => simp only [hep, exceptBind_error] at h; exact absurd h (by simp)
          | ok ep =>
            simp only [hep, exceptBind_ok] at h
            cases hws : ep.asWriteStr with
            | error err => simp only [hws, exceptBind_error] at h; exact absurd h (by simp)
            | ok txt =>
              simp only [hws, exceptBind_ok, Except.ok.injEq, Prod.mk.injEq] at h
              exact Or.inr ⟨txt, h.1.symm, h.2.1.symm⟩

/-- `save_meta` touches only the Meta file and the archived Meta copies:
the content directory and the snapshot story files are untouched. -/
theorem save_meta_www_bins (e : Engine) (fs : FS) :
    (save_meta e fs).1.www = fs.www ∧ (save_meta e fs).1.bins = fs.bins := by
  unfold save_meta
  cases e.metaObject with
  | none => exact ⟨rfl, rfl⟩
  | some mo =>
    simp only
    cases mo.truthy
    · simp
    · simp only [if_true]
      cases e.binPath with
      | none => exact ⟨rfl, rfl⟩
      | some bin =>
        cases fs.metaFile with
        | none => exact ⟨rfl, rfl⟩
        | some old => exact ⟨rfl, rfl⟩

/-- Determination of the snapshot step from a previous Meta carrying a
string checksum. -/
theorem snapshotStep_det (e : Engine) (fs : FS) (m : Json) (cPrev : String)
    (hm : e.metaFileContent = some m) (htr : m.truthy = true)
    (hmem : m.hasMember "checksum" = .ok true)
    (hget : m.getItem "checksum" = .ok (.str cPrev)) :
    ∃ opsA, snapshotStep e fs =
      .ok ({ e with binPath := some cPrev }, fs.mkBin cPrev, opsA) := by
  unfold snapshotStep
  rw [hm]
  simp only [htr, if_true, hmem, exceptBind_ok, hget]
  exact ⟨_, rfl⟩

/-- Change detection answers `true` when the stored checksum differs from
the computed one. -/
theorem changeDetected_true_det (e : Engine) (m mo : Json) (cPrev cNew : String)
    (hm : e.metaFileContent = some m) (htr : m.truthy = true)
    (hmem : m.hasMember "checksum" = .ok true)
    (hget : m.getItem "checksum" = .ok (.str cPrev))
    (hmo : e.metaObject = some mo)
    (hmoCk : mo.getItem "checksum" = .ok (.str cNew))
    (hne : cPrev ≠ cNew) :
    changeDetected e = .ok true := by
  unfold changeDetected
  rw [hm]
  simp only [htr, if_true, hmem, exceptBind_ok, hget, hmo, Option.getD_some, hmoCk]
  simp [strBeq_false_of_ne hne]

/-- Change detection answers `false` when the stored checksum equals the
computed one. -/
theorem changeDetected_false_det (e : Engine) (m mo : Json) (c : String)
    (hm : e.metaFileContent = some m) (htr : m.truthy = true)
    (hmem : m.hasMember "checksum" = .ok true)
    (hget : m.getItem "checksum" = .ok (.str c))
    (hmo : e.metaObject = some mo)
    (hmoCk : mo.getItem "checksum" = .ok (.str c)) :
    changeDetected e = .ok false := by
  unfold changeDetected
  rw [hm]
  simp only [htr, if_true, hmem, exceptBind_ok, hget, hmo, Option.getD_some, hmoCk]
  simp

/-- Decomposition of a successful changed sync cycle into its steps. -/
theorem sync_changed_decomp (ck : Json → String) (e : Engine) (resp : Response)
    (now : String) (fs : FS) (e1 : Engine) (e2 : Engine) (fs2 : FS)
    (ops : List FSOp) (r : Bool)
    (hv : validate_api_response ck e resp now = .ok (e1, true))
    (hcd : changeDetected e1 = .ok true)
    (h : sync ck e (some resp) now fs = .ok (e2, fs2, ops, r)) :
    ∃ e1' fs1 opsA e3 fsB opsB fsC opsC bC,
      snapshotStep e1 fs = .ok (e1', fs1, opsA) ∧
      sync_stories e1' fs1 = .ok (e3, fsB, opsB) ∧
      save_error_page e3 fsB = .ok (fsC, opsC, bC) ∧
      e2 = e3 ∧ fs2 = (save_meta e3 fsC).1 ∧
      ops = opsA ++ opsB ++ opsC ++ (save_meta e3 fsC).2.1 ∧ r = false := by
  unfold sync at h
  simp only [hv, if_true, hcd] at h
  cases hss : snapshotStep e1 fs with
  | error err => simp only [hss] at h; exact absurd h (by simp)
  | ok r1 =>
    obtain ⟨e1', fs1, opsA⟩ := r1
    simp only [hss] at h
    cases hsy : sync_stories e1' fs1 with
    | error err => simp only [hsy] at h; exact absurd h (by simp)
    | ok r2 =>
      obtain ⟨e3, fsB, opsB⟩ := r2
      simp only [hsy] at h
      cases hse : save_error_page e3 fsB with
      | error err => simp only [hse] at h; exact absurd h (by simp)
      | ok r3 =>
        obtain ⟨fsC, opsC, bC⟩ := r3
        simp only [hse] at h
        simp only [Except.ok.injEq, Prod.mk.injEq] at h
        exact ⟨e1', fs1, opsA, e3, fsB, opsB, fsC, opsC, bC, rfl, hsy, hse,
          h.1.symm, h.2.1.symm, h.2.2.1.symm, h.2.2.2.symm⟩

/-- Decomposition of a successful `sync_stories` run into its steps. -/
theorem sync_stories_decomp (e : Engine) (fs : FS) (e' : Engine) (fs' : FS)
    (ops : List FSOp) (h : sync_stories e fs = .ok (e', fs', ops)) :
    ∃ fs1 ops1 mo mo1 data sj items mo2 fsL ops2 sitems,
      clean_local_storage e fs = .ok (fs1, ops1) ∧
      e.metaObject = some mo ∧ mo.setItem "stories" (.obj []) = .ok mo1 ∧
      e.remoteData = some data ∧ data.getItem "stories" = .ok sj ∧
      sj.iterItems = .ok items ∧
      storiesLoop mo1 fs1 "" items = .ok (mo2, fsL, ops2, sitems) ∧
      e' = { e with metaObject := some mo2 } ∧
      fs' = fsL.writeWwwFile "sitemap.xml" (sitemapContent sitems) ∧
      ops = ops1 ++ ops2 ++ [.writeWww "sitemap.xml" (sitemapContent sitems)] := by
  unfold sync_stories at h
  cases hcl : clean_local_storage e fs with
  | error err => simp only [hcl] at h; exact absurd h (by simp)
  | ok r1 =>
    obtain ⟨fs1, ops1⟩ := r1
    simp only [hcl] at h
    cases hmo : e.metaObject with
    | none => simp only [hmo] at h; exact absurd h (by simp)
    | some mo =>
      simp only [hmo] at h
      cases hsi : mo.setItem "stories" (.obj []) with
      | error err => simp only [hsi, exceptBind_error] at h; exact absurd h (by simp)
      | ok mo1 =>
        simp only [hsi, exceptBind_ok] at h
        cases hrd : e.remoteData with
        | none => simp only [hrd] at h; exact absurd h (by simp)
        | some data =>
          simp only [hrd] at h
          cases hst : data.getItem "stories" with
          | error err => simp only [hst, exceptBind_error] at h; exact absurd h (by simp)
          | ok sj =>
            simp only [hst, exceptBind_ok] at h
            cases hit : sj.iterItems with
            | error err => simp only [hit, exceptBind_error] at h; exact absurd h (by simp)
            | ok items =>
              simp only [hit, exceptBind_ok] at h
              cases hsl : storiesLoop mo1 fs1 "" items with
              | error err => simp only [hsl] at h; exact absurd h (by simp)
              | ok r2 =>
                obtain ⟨mo2, fsL, ops2, sitems⟩ := r2
                simp only [hsl, Except.ok.injEq, Prod.mk.injEq] at h
                exact ⟨fs1, ops1, mo, mo1, data, sj, items, mo2, fsL, ops2, sitems,
                  rfl, rfl, hsi, rfl, hst, hit, hsl,
                  h.1.symm, h.2.1.symm, h.2.2.symm⟩

/-! Claim theorems. -/

/-- C1: if the previous local metadata exists and its checksum equals the
checksum computed from the newly fetched document, the sync cycle
modifies, creates and deletes no file in the content directory, creates no
snapshot directory and writes no new Meta file: the file system is
returned unchanged with an empty operation list. -/
theorem sync_checksum_match_no_local_change
    (ck : Json → String) (e : Engine) (resp : Response) (now : String) (fs : FS)
    (e1 : Engine) (m : Json) (data : Json)
    (hv : validate_api_response ck e resp now = .ok (e1, true))
    (hbody : resp.body = .ok data)
    (hm : e.metaFileContent = some m)
    (htr : m.truthy = true)
    (hmem : m.hasMember "checksum" = .ok true)
    (hget : m.getItem "checksum" = .ok (.str (ck data))) :
    sync ck e (some resp) now fs = .ok (e1, fs, [], false) := by
  obtain ⟨hmf, hbp, hdict, hmeta⟩ := validate_ok_shape ck e resp now e1 true hv
  obtain ⟨data2, mo, hbody2, hbm, hmo, hrd⟩ := hmeta rfl
  have hd2 : data2 = data := by
    rw [hbody] at hbody2
    injection hbody2 with hinj
    exact hinj.symm
  subst hd2
  have hckmo : mo.getItem "checksum" = .ok (.str (ck data2)) :=
    buildMetaObject_checksum ck data2 now mo hbm
  have hcd : changeDetected e1 = .ok false :=
    changeDetected_false_det e1 m mo (ck data2) (hmf.trans hm) htr hmem hget hmo hckmo
  unfold sync
  simp only [hv, if_true, hcd, Bool.false_eq_true, if_false]

/-- C1 witness: a concrete cycle whose previous Meta carries the current
checksum leaves the file system untouched. -/
theorem sync_checksum_match_no_local_change_witness :
    sync ckW engC1 (some ⟨200, .ok docC1⟩) "NOW" fsC1 = .ok (engC1v, fsC1, [], false) :=
  sync_checksum_match_no_local_change ckW engC1 ⟨200, .ok docC1⟩ "NOW" fsC1
    engC1v metaC1 docC1 (by rfl) (by rfl) (by rfl) (by rfl) (by rfl) (by rfl)

/-- C2: a cycle whose fetch failed (the fetcher returned nothing after a
logged HTTP or network error) or whose validation returned `false`
(non-200 code, malformed JSON, or a missing required field) returns the
unsuccessful verdict and performs no file-system operation: content
directory, snapshots and Meta file are all returned unchanged. -/
theorem sync_failed_cycle_no_local_change
    (ck : Json → String) (e : Engine) (fetched : Option Response) (now : String)
    (fs : FS)
    (hfail : fetched = none ∨ ∃ resp e1, fetched = some resp ∧
      validate_api_response ck e resp now = .ok (e1, false)) :
    ∃ e', sync ck e fetched now fs = .ok (e', fs, [], false) := by
  rcases hfail with hn | ⟨resp, e1, hf, hv⟩
  · subst hn
    exact ⟨e, rfl⟩
  · subst hf
    refine ⟨e1, ?_⟩
    unfold sync
    simp only [hv, Bool.false_eq_true, if_false]

/-- C2 witness: a malformed-JSON response aborts the concrete cycle with
no file-system operation. -/
theorem sync_failed_cycle_no_local_change_witness :
    ∃ e', sync ckW engC1 (some ⟨200, .error ()⟩) "NOW" fsC1 = .ok (e', fsC1, [], false) :=
  sync_failed_cycle_no_local_change ckW engC1 (some ⟨200, .error ()⟩) "NOW" fsC1
    (Or.inr ⟨⟨200, .error ()⟩, engC1, rfl, by rfl⟩)

/-- C9 (code bug): `sync` cannot distinguish outcomes, because its result
is `false` on every terminating path — the success branch at source line
362 returns `False` right after logging "Update Complete", the same value
as the failure path. -/
theorem sync_returns_false_always
    (ck : Json → String) (e : Engine) (fetched : Option Response) (now : String)
    (fs : FS) (e' : Engine) (fs' : FS) (ops : List FSOp) (b : Bool)
    (h : sync ck e fetched now fs = .ok (e', fs', ops, b)) : b = false := by
  unfold sync at h
  cases fetched with
  | none =>
    simp only [Except.ok.injEq, Prod.mk.injEq] at h
    exact h.2.2.2.symm
  | some resp =>
    cases hv : validate_api_response ck e resp now with
    | error err => simp only [hv] at h; exact absurd h (by simp)
    | ok r1 =>
      obtain ⟨e1, valid⟩ := r1
      simp only [hv] at h
      cases valid with
      | false =>
        simp only [Bool.false_eq_true, if_false, Except.ok.injEq, Prod.mk.injEq] at h
        exact h.2.2.2.symm
      | true =>
        simp only [if_true] at h
        cases hcd : changeDetected e1 with
        | error err => simp only [hcd] at h; exact absurd h (by simp)
        | ok changed =>
          simp only [hcd] at h
          cases changed with
          | false =>
            simp only [Bool.false_eq_true, if_false, Except.ok.injEq, Prod.mk.injEq] at h
            exact h.2.2.2.symm
          | true =>
            simp only [if_true] at h
            cases hss : snapshotStep e1 fs with
            | error err => simp only [hss] at h; exact absurd h (by simp)
            | ok r2 =>
              obtain ⟨e2, fs1, opsA⟩ := r2
              simp only [hss] at h
              cases hsy : sync_stories e2 fs1 with
              | error err => simp only [hsy] at h; exact absurd h (by simp)
              | ok r3 =>
                obtain ⟨e3, fs2, opsB⟩ := r3
                simp only [hsy] at h
                cases hse : save_error_page e3 fs2 with
                | error err => simp only [hse] at h; exact absurd h (by simp)
                | ok r4 =>
                  obtain ⟨fs3, opsC, bC⟩ := r4
                  simp only [hse] at h
                  rcases hsm : save_meta e3 fs3 with ⟨fs4, opsD, bD⟩
                  simp only [hsm, Except.ok.injEq, Prod.mk.injEq] at h
                  exact h.2.2.2.symm

/-- C9 witness: a fully successful concrete cycle (two files written,
Meta written, "Update Complete" path) still returns `false`. -/
theorem sync_returns_false_always_witness : retC9 = false :=
  sync_returns_false_always ckW Engine.init (some ⟨200, .ok docC1⟩) "NOW" fsEmpty
    engC9 fsC9 opsC9 retC9 (by rfl)

/-- C8 (code bug): a valid-JSON payload denoting the null or the empty
document makes the cycle raise an uncaught exception instead of returning
a failure verdict: validation skips the field checks for a falsy document
and then subscripts it to build the Meta object (source lines 230 and
249-255), raising `TypeError` for `null` and `KeyError` for `{}`. -/
theorem sync_falsy_payload_raises :
    sync ckW Engine.init (some ⟨200, .ok .null⟩) "NOW" fsEmpty =
      .error (.typeError "value is not subscriptable with a string") ∧
    sync ckW Engine.init (some ⟨200, .ok (.obj [])⟩) "NOW" fsEmpty =
      .error (.keyError "title") :=
  ⟨rfl, rfl⟩

/-- C7 (code bug): `read_meta` returns the parsed Meta for a well-formed
file and absent for a missing file, but a malformed file raises:
`json.load` signals `json.JSONDecodeError`, while the `except` clause at
source line 111 catches only `OSError`, so the parse failure propagates. -/
theorem read_meta_malformed_raises :
    read_meta none (fun _ => .error .jsonDecodeError) = .ok none ∧
    read_meta (some "well-formed") (fun _ => .ok metaC1) = .ok (some metaC1) ∧
    read_meta (some "not json at all") (fun _ => .error .jsonDecodeError) =
      .error .jsonDecodeError :=
  ⟨rfl, rfl, rfl⟩

/-- C5: a file of the content directory whose name is not a key of the
previous metadata's story set is deleted outright by reconciliation: it is
gone from the content directory, a delete operation was emitted, no rename
into a snapshot was emitted for it, and every snapshot's entry for that
name is unchanged. -/
theorem clean_untracked_file_deleted_not_archived
    (e : Engine) (fs : FS) (a ca : String) (fs' : FS) (ops : List FSOp)
    (hg : storyTrackedGuard e.metaFileContent a = .ok false)
    (hmem : (a, ca) ∈ fs.www)
    (h : clean_local_storage e fs = .ok (fs', ops)) :
    fs'.wwwLookup a = none ∧ FSOp.removeWww a ∈ ops ∧
    (∀ b c', FSOp.renameWwwToBin b a c' ∉ ops) ∧
    (∀ b, fs'.binLookup b a = fs.binLookup b a) :=
  cleanList_remove e fs.www fs fs' ops a (cleanStep_untracked e a hg) h ⟨ca, hmem⟩

/-- C5 witness: the foreign file `junk.txt` is deleted, not archived, by a
concrete reconciliation. -/
theorem clean_untracked_file_deleted_not_archived_witness :
    fsC5r.wwwLookup "junk.txt" = none ∧ FSOp.removeWww "junk.txt" ∈ opsC5 ∧
    (∀ b c', FSOp.renameWwwToBin b "junk.txt" c' ∉ opsC5) ∧
    (∀ b, fsC5r.binLookup b "junk.txt" = fsC5.binLookup b "junk.txt") :=
  clean_untracked_file_deleted_not_archived engC1 fsC5 "junk.txt" "J" fsC5r opsC5
    (by rfl) (by simp [fsC5]) (by rfl)

/-- C4: a story anchor tracked in the previous metadata but absent from
the new remote story set has its file moved into the active snapshot
directory by a changed-cycle reconciliation: afterwards the file is absent
from the content directory and present, with its old content, in the
snapshot. -/
theorem clean_removed_story_archived
    (e : Engine) (fs : FS) (a ca bin : String) (fs' : FS) (ops : List FSOp)
    (hg : storyTrackedGuard e.metaFileContent a = .ok true)
    (hb : e.binPath = some bin)
    (hd : dictLookup e.storyDictonary (.str a) = none)
    (hmem : (a, ca) ∈ fs.www)
    (hnd : (fs.www.map Prod.fst).Nodup)
    (h : clean_local_storage e fs = .ok (fs', ops)) :
    fs'.wwwLookup a = none ∧ fs'.binLookup bin a = some ca ∧
    FSOp.renameWwwToBin bin a ca ∈ ops :=
  cleanList_move e fs.www fs fs' ops a ca bin
    (fun fs0 => cleanStep_removedStory e a bin hg hb hd fs0 ca) h hmem hnd

/-- C4 witness: the story `alpha`, tracked before but absent from the new
remote set, ends up in the snapshot directory and out of the content
directory. -/
theorem clean_removed_story_archived_witness :
    fsC4r.wwwLookup "alpha" = none ∧ fsC4r.binLookup "OLDBIN" "alpha" = some "AAA" ∧
    FSOp.renameWwwToBin "OLDBIN" "alpha" "AAA" ∈ opsC4 :=
  clean_removed_story_archived engC4 fsC4 "alpha" "AAA" "OLDBIN" fsC4r opsC4
    (by rfl) (by rfl) (by rfl) (by simp [fsC4]) (by simp [fsC4]) (by rfl)

/-- C6: `sync_stories` writes every story of the new remote set to the
content directory under its anchor as the file name with the story's
`content` field as contents, unconditionally — there is no hash condition
on the write, so stories whose hash matched the recorded one are written
all the same. -/
theorem sync_stories_writes_every_story
    (e : Engine) (fs : FS) (data : Json) (ss : List Json) (s an ct : Json)
    (cs : String) (e' : Engine) (fs' : FS) (ops : List FSOp)
    (hrd : e.remoteData = some data)
    (hst : data.getItem "stories" = .ok (.arr ss))
    (hs : s ∈ ss)
    (han : s.getItem "anchor" = .ok an)
    (hct : s.getItem "content" = .ok ct)
    (hcs : ct.asWriteStr = .ok cs)
    (h : sync_stories e fs = .ok (e', fs', ops)) :
    FSOp.writeWww an.pyStr cs ∈ ops := by
  obtain ⟨fs1, ops1, mo, mo1, data2, sj, items, mo2, fsL, ops2, sitems,
    hcl, hmo, hsi, hrd2, hst2, hit, hsl, he, hfs, hops⟩ :=
    sync_stories_decomp e fs e' fs' ops h
  rw [hrd] at hrd2
  injection hrd2 with hd2
  subst hd2
  rw [hst] at hst2
  injection hst2 with hsj
  subst hsj
  unfold Json.iterItems at hit
  injection hit with hitems
  subst hitems
  have hw := storiesLoop_writes ss mo1 fs1 "" mo2 fsL ops2 sitems s an ct cs
    hsl hs han hct hcs
  rw [hops]
  exact List.mem_append.mpr (Or.inl (List.mem_append.mpr (Or.inr hw)))

/-- C6 witness: the concrete story `alpha` is written with its content by
a concrete `sync_stories` run. -/
theorem sync_stories_writes_every_story_witness :
    FSOp.writeWww "alpha" "AAA" ∈ opsC6 :=
  sync_stories_writes_every_story engC6 fsEmpty docC1 [storyW "alpha" "h1" "AAA"]
    (storyW "alpha" "h1" "AAA") (.str "alpha") (.str "AAA") "AAA" engC6r fsC6r opsC6
    (by rfl) (by rfl) (by simp) (by rfl) (by rfl) (by rfl) (by rfl)

/-- C3 counterexample: for the anchor `error.html`, tracked at hash `h1`
and updated remotely to hash `h2` with content `NEWBODY`, the cycle does
archive the old file, but the live file with that anchor name ends up
holding the remote `error_page` content — the error-page render overwrites
the story write — so the claim's "containing the new story's `content`
field" is false as stated. -/
theorem sync_updated_story_reserved_anchor_counterexample :
    (fsOfSync runC3x).binLookup "OLDCK" "error.html" = some "OLDBODY" ∧
    (fsOfSync runC3x).wwwLookup "error.html" = some "ERRPAGE" ∧
    ¬ (fsOfSync runC3x).wwwLookup "error.html" = some "NEWBODY" :=
  ⟨rfl, rfl, by
    rw [show (fsOfSync runC3x).wwwLookup "error.html" = some "ERRPAGE" from rfl]
    simp⟩

/-- C3 (amended): for a story anchor tracked in the previous metadata with
hash `h1`, reported by the new document with hash `h2 ≠ h1`, when a
previous checksum exists and differs from the new one (so a snapshot is
active): after the cycle the old file has been moved into the snapshot
directory named by the previous checksum, and — provided the anchor is not
one of the reserved names `error.html` or `sitemap.xml`, which the
error-page and sitemap render steps overwrite afterwards — a live file
with the same anchor name exists containing the new story's `content`
field. -/
theorem sync_updated_story_archived_and_rewritten
    (ck : Json → String) (e : Engine) (resp : Response) (now : String) (fs : FS)
    (e1 : Engine) (m data mst entry s h1 h2 : Json) (ss : List Json)
    (a cPrev oldC c2 : String) (e2 : Engine) (fs2 : FS) (ops : List FSOp) (r : Bool)
    (hv : validate_api_response ck e resp now = .ok (e1, true))
    (hbody : resp.body = .ok data)
    (hm : e.metaFileContent = some m)
    (htr : m.truthy = true)
    (hckmem : m.hasMember "checksum" = .ok true)
    (hckget : m.getItem "checksum" = .ok (.str cPrev))
    (hchanged : cPrev ≠ ck data)
    (hg : storyTrackedGuard (some m) a = .ok true)
    (hstories : m.getItem "stories" = .ok mst)
    (hentry : mst.getItem a = .ok entry)
    (hentryHash : entry.getItem "hash" = .ok h1)
    (hd : dictLookup e1.storyDictonary (.str a) = some s)
    (hsHash : s.getItem "hash" = .ok h2)
    (hne : Json.pyEq h2 h1 = false)
    (hrst : data.getItem "stories" = .ok (.arr ss))
    (hall : ∀ t ∈ ss, ∀ an, t.getItem "anchor" = .ok an → an.pyStr = a →
      t.getItem "content" = .ok (.str c2))
    (hex : ∃ t, t ∈ ss ∧ ∃ an, t.getItem "anchor" = .ok an ∧ an.pyStr = a)
    (hmem : (a, oldC) ∈ fs.www)
    (hnd : (fs.www.map Prod.fst).Nodup)
    (hresv1 : a ≠ "error.html")
    (hresv2 : a ≠ "sitemap.xml")
    (h : sync ck e (some resp) now fs = .ok (e2, fs2, ops, r)) :
    fs2.binLookup cPrev a = some oldC ∧ fs2.wwwLookup a = some c2 := by
  obtain ⟨hmf, hbp, hdict, hmeta⟩ := validate_ok_shape ck e resp now e1 true hv
  obtain ⟨data2, mo, hbody2, hbm, hmo, hrd⟩ := hmeta rfl
  have hd2 : data2 = data := by
    rw [hbody] at hbody2
    injection hbody2 with hinj
    exact hinj.symm
  subst hd2
  have hckmo : mo.getItem "checksum" = .ok (.str (ck data2)) :=
    buildMetaObject_checksum ck data2 now mo hbm
  have hcd : changeDetected e1 = .ok true :=
    changeDetected_true_det e1 m mo cPrev (ck data2) (hmf.trans hm) htr hckmem hckget
      hmo hckmo hchanged
  obtain ⟨e1', fs1, opsA, e3, fsB, opsB, fsC, opsC, bC, hss, hsy, hse,
    he2, hfs2, hops, hr⟩ := sync_changed_decomp ck e resp now fs e1 e2 fs2 ops r hv hcd h
  obtain ⟨opsA2, hss2⟩ := snapshotStep_det e1 fs m cPrev (hmf.trans hm) htr hckmem hckget
  rw [hss2] at hss
  simp only [Except.ok.injEq, Prod.mk.injEq] at hss
  obtain ⟨he1', hfs1, hopsA⟩ := hss
  obtain ⟨fsW, ops1, mo', mo1, dataS, sj, items, mo2, fsL, ops2, sitems,
    hcl, hmoS, hsi, hrdS, hstS, hit, hsl, heS, hfsB, hopsB⟩ :=
    sync_stories_decomp e1' fs1 e3 fsB opsB hsy
  have hrdS2 : dataS = data2 := by
    rw [← he1'] at hrdS
    simp only at hrdS
    rw [hrd] at hrdS
    injection hrdS with hinj
    exact hinj.symm
  subst hrdS2
  have hsj : sj = .arr ss := by
    rw [hrst] at hstS
    injection hstS with hinj
    exact hinj.symm
  subst hsj
  have hitems : items = ss := by
    unfold Json.iterItems at hit
    injection hit with hinj
    exact hinj.symm
  subst hitems
  have hstep : ∀ fs0 : FS, cleanStep e1' fs0 a oldC =
      .ok (fs0.moveToBin cPrev a oldC, [.renameWwwToBin cPrev a oldC]) := by
    intro fs0
    refine cleanStep_updatedStory e1' a cPrev s h2 mst entry h1 ?_ ?_ ?_ hsHash ?_ ?_
      hentryHash hne fs0 oldC
    · rw [← he1']
      simp only
      rw [hmf, hm]
      exact hg
    · rw [← he1']
    · rw [← he1']
      simp only
      exact hd
    · rw [← he1']
      simp only
      rw [hmf, hm]
      simp only [Option.getD_some]
      exact hstories
    · exact hentry
  have hclean := cleanList_move e1' fs1.www fs1 fsW ops1 a oldC cPrev hstep hcl
    (by rw [← hfs1, mkBin_www]; exact hmem)
    (by rw [← hfs1, mkBin_www]; exact hnd)
  obtain ⟨hw1, hb1, hopmem⟩ := hclean
  have hwL : fsL.wwwLookup a = some c2 :=
    storiesLoop_last items mo1 fsW "" mo2 fsL ops2 sitems a c2 hall hex hsl
  have hbinsL : fsL.bins = fsW.bins :=
    (storiesLoop_fsShape items mo1 fsW "" mo2 fsL ops2 sitems hsl).1
  have hwB : fsB.wwwLookup a = some c2 := by
    rw [hfsB]
    rw [wwwLookup_writeWwwFile_other fsL "sitemap.xml" (sitemapContent sitems) a hresv2]
    exact hwL
  have hbB : fsB.binLookup cPrev a = some oldC := by
    rw [hfsB]
    rw [binLookup_congr_bins (writeWwwFile_bins fsL "sitemap.xml" (sitemapContent sitems)) cPrev a]
    rw [binLookup_congr_bins hbinsL cPrev a]
    exact hb1
  have hsec := save_error_page_shape e3 fsB fsC opsC bC hse
  have hwC : fsC.wwwLookup a = some c2 := by
    rcases hsec with ⟨hfsC, _⟩ | ⟨txt, hfsC, _⟩
    · rw [hfsC]; exact hwB
    · rw [hfsC]
      rw [wwwLookup_writeWwwFile_other fsB "error.html" txt a hresv1]
      exact hwB
  have hbC : fsC.binLookup cPrev a = some oldC := by
    rcases hsec with ⟨hfsC, _⟩ | ⟨txt, hfsC, _⟩
    · rw [hfsC]; exact hbB
    · rw [hfsC]
      rw [binLookup_congr_bins (writeWwwFile_bins fsB "error.html" txt) cPrev a]
      exact hbB
  have hsm := save_meta_www_bins e3 fsC
  constructor
  · rw [hfs2]
    rw [binLookup_congr_bins hsm.2 cPrev a]
    exact hbC
  · rw [hfs2]
    rw [wwwLookup_congr_www hsm.1 a]
    exact hwC

/-- C3 witness: the concrete story `alpha`, updated from hash `h1` to
`h2`, has its old file archived under the previous checksum and its new
content live after the cycle. -/
theorem sync_updated_story_archived_and_rewritten_witness :
    fsC3s.binLookup "OLDCK" "alpha" = some "OLD" ∧
    fsC3s.wwwLookup "alpha" = some "NEW" :=
  sync_updated_story_archived_and_rewritten ckW engC3 ⟨200, .ok docC3⟩ "NOW" fsC3
    engC3v metaC3 docC3 (.obj [("alpha", metaEntryW "alpha" "h1")])
    (metaEntryW "alpha" "h1") (storyW "alpha" "h2" "NEW") (.str "h1") (.str "h2")
    [storyW "alpha" "h2" "NEW"] "alpha" "OLDCK" "OLD" "NEW"
    engC3s fsC3s opsC3s retC3s
    (by rfl) (by rfl) (by rfl) (by rfl) (by rfl) (by rfl) (by decide)
    (by rfl) (by rfl) (by rfl) (by rfl) (by rfl) (by rfl) (by rfl) (by rfl)
    (by
      intro t ht an han hpy
      simp only [List.mem_singleton] at ht
      subst ht
      rfl)
    ⟨storyW "alpha" "h2" "NEW", by simp, .str "alpha", by rfl, by rfl⟩
    (by simp [fsC3]) (by simp [fsC3]) (by decide) (by decide) (by rfl)

/-- C10: `story_dictonary` is shared state never cleared between cycles.
For two consecutive cycles on the same instance (the second reading the
Meta file the first wrote, as the infinity loop does), an anchor inserted
during the first cycle's validation is still present in the mapping after
the second cycle's validation even though the second document does not
carry it; consequently, when the second cycle's Meta entry for that anchor
records the same hash as the stale dict entry, the reconciliation treats
the removed story as unchanged: its file stays in the live content
directory and no snapshot receives it, instead of it being archived. -/
theorem stale_story_dictonary_keeps_removed_story_live
    (ck : Json → String) (e0 : Engine) (resp1 resp2 : Response) (now1 now2 : String)
    (fs0 fs1 : FS) (e1 eIn e2v : Engine) (ops1 : List FSOp) (r1 : Bool)
    (s m2 mst2 entry2 hNew hOld data2 : Json) (ss2 : List Json)
    (a c cPrev2 : String) (e2 : Engine) (fs2 : FS) (ops2 : List FSOp) (r2 : Bool)
    (_hcycle1 : sync ck e0 (some resp1) now1 fs0 = .ok (e1, fs1, ops1, r1))
    (hstale : dictLookup e1.storyDictonary (.str a) = some s)
    (heIn : eIn = { e1 with metaFileContent := fs1.metaFile })
    (hv2 : validate_api_response ck eIn resp2 now2 = .ok (e2v, true))
    (hbody2 : resp2.body = .ok data2)
    (hrst2 : data2.getItem "stories" = .ok (.arr ss2))
    (habsent : ∀ t ∈ ss2, ∀ an, t.getItem "anchor" = .ok an →
      Json.pyEq an (.str a) = false ∧ an.pyStr ≠ a)
    (hm2 : fs1.metaFile = some m2)
    (htr2 : m2.truthy = true)
    (hckmem2 : m2.hasMember "checksum" = .ok true)
    (hckget2 : m2.getItem "checksum" = .ok (.str cPrev2))
    (hch2 : cPrev2 ≠ ck data2)
    (hg2 : storyTrackedGuard (some m2) a = .ok true)
    (hstories2 : m2.getItem "stories" = .ok mst2)
    (hentry2 : mst2.getItem a = .ok entry2)
    (hoh2 : entry2.getItem "hash" = .ok hOld)
    (hsh : s.getItem "hash" = .ok hNew)
    (hhashEq : Json.pyEq hNew hOld = true)
    (hlive : fs1.wwwLookup a = some c)
    (hresv1 : a ≠ "error.html")
    (hresv2 : a ≠ "sitemap.xml")
    (h2 : sync ck eIn (some resp2) now2 fs1 = .ok (e2, fs2, ops2, r2)) :
    dictLookup e2v.storyDictonary (.str a) = some s ∧
    fs2.wwwLookup a = some c ∧
    (∀ b, fs2.binLookup b a = fs1.binLookup b a) := by
  obtain ⟨hmf, hbp, hdict, hmeta⟩ := validate_ok_shape ck eIn resp2 now2 e2v true hv2
  obtain ⟨dataX, mo, hbodyX, hbm, hmo, hrd⟩ := hmeta rfl
  have hdX : dataX = data2 := by
    rw [hbody2] at hbodyX
    injection hbodyX with hinj
    exact hinj.symm
  rw [hdX] at hbm hrd
  have hstaleIn : dictLookup eIn.storyDictonary (.str a) = some s := by
    rw [heIn]
    exact hstale
  have hpart1 : dictLookup e2v.storyDictonary (.str a) = some s := by
    rcases hdict with hsame | ⟨dataY, sjY, itemsY, dict, bb, hbodyY, hstY, hitY, hps, hd2⟩
    · rw [hsame]
      exact hstaleIn
    · have hdY : dataY = data2 := by
        rw [hbody2] at hbodyY
        injection hbodyY with hinj
        exact hinj.symm
      rw [hdY] at hstY
      have hsjY : sjY = .arr ss2 := by
        rw [hrst2] at hstY
        injection hstY with hinj
        exact hinj.symm
      subst hsjY
      have hitemsY : itemsY = ss2 := by
        unfold Json.iterItems at hitY
        injection hitY with hinj
        exact hinj.symm
      rw [hitemsY] at hps
      rw [hd2]
      rw [processStories_preserves ss2 eIn.storyDictonary dict bb a
        (fun t ht an han => (habsent t ht an han).1) hps]
      exact hstaleIn
  have hmfIn : e2v.metaFileContent = some m2 := by
    rw [hmf, heIn]
    exact hm2
  have hckmo : mo.getItem "checksum" = .ok (.str (ck data2)) :=
    buildMetaObject_checksum ck data2 now2 mo hbm
  have hcd : changeDetected e2v = .ok true :=
    changeDetected_true_det e2v m2 mo cPrev2 (ck data2) hmfIn htr2 hckmem2 hckget2
      hmo hckmo hch2
  obtain ⟨e1', fsS, opsA, e3, fsB, opsB, fsC, opsC, bC, hss, hsy, hse,
    he2, hfs2, hops, hr⟩ :=
    sync_changed_decomp ck eIn resp2 now2 fs1 e2v e2 fs2 ops2 r2 hv2 hcd h2
  obtain ⟨opsA2, hss2⟩ := snapshotStep_det e2v fs1 m2 cPrev2 hmfIn htr2 hckmem2 hckget2
  rw [hss2] at hss
  simp only [Except.ok.injEq, Prod.mk.injEq] at hss
  obtain ⟨he1', hfsS, hopsA⟩ := hss
  obtain ⟨fsW, opsW1, mo', mo1, dataS, sj, items, mo2, fsL, opsW2, sitems,
    hcl, hmoS, hsi, hrdS, hstS, hit, hsl, heS, hfsB, hopsB⟩ :=
    sync_stories_decomp e1' fsS e3 fsB opsB hsy
  have hrdS2 : dataS = data2 := by
    rw [← he1'] at hrdS
    simp only at hrdS
    rw [hrd] at hrdS
    injection hrdS with hinj
    exact hinj.symm
  rw [hrdS2] at hstS
  have hsj : sj = .arr ss2 := by
    rw [hrst2] at hstS
    injection hstS with hinj
    exact hinj.symm
  subst hsj
  have hitems : items = ss2 := by
    unfold Json.iterItems at hit
    injection hit with hinj
    exact hinj.symm
  rw [hitems] at hsl
  have hstep : ∀ (fs0 : FS) (c' : String), cleanStep e1' fs0 a c' = .ok (fs0, []) := by
    refine cleanStep_unchangedStory e1' a cPrev2 s hNew mst2 entry2 hOld ?_ ?_ ?_
      hsh ?_ ?_ hoh2 hhashEq
    · rw [← he1']
      simp only
      rw [hmfIn]
      exact hg2
    · rw [← he1']
    · rw [← he1']
      simp only
      exact hpart1
    · rw [← he1']
      simp only
      rw [hmfIn]
      simp only [Option.getD_some]
      exact hstories2
    · exact hentry2
  obtain ⟨hk1, hk2, hk3, hk4⟩ :=
    cleanList_keep e1' fsS.www fsS fsW opsW1 a hstep hcl
  have hwW : fsW.wwwLookup a = some c := by
    rw [hk1, ← hfsS, wwwLookup_congr_www (mkBin_www fs1 cPrev2) a]
    exact hlive
  have hwL : fsL.wwwLookup a = fsW.wwwLookup a :=
    storiesLoop_other ss2 mo1 fsW "" mo2 fsL opsW2 sitems a
      (fun t ht an han => (habsent t ht an han).2) hsl
  have hbinsL : fsL.bins = fsW.bins :=
    (storiesLoop_fsShape ss2 mo1 fsW "" mo2 fsL opsW2 sitems hsl).1
  have hwB : fsB.wwwLookup a = some c := by
    rw [hfsB,
      wwwLookup_writeWwwFile_other fsL "sitemap.xml" (sitemapContent sitems) a hresv2,
      hwL]
    exact hwW
  have hbinsW : ∀ b, fsW.binLookup b a = fs1.binLookup b a := by
    intro b
    rw [hk4 b, ← hfsS, binLookup_mkBin fs1 cPrev2 b a]
  have hbB : ∀ b, fsB.binLookup b a = fs1.binLookup b a := by
    intro b
    rw [hfsB,
      binLookup_congr_bins (writeWwwFile_bins fsL "sitemap.xml" (sitemapContent sitems)) b a,
      binLookup_congr_bins hbinsL b a]
    exact hbinsW b
  have hsec := save_error_page_shape e3 fsB fsC opsC bC hse
  have hwC : fsC.wwwLookup a = some c := by
    rcases hsec with ⟨hfsC, _⟩ | ⟨txt, hfsC, _⟩
    · rw [hfsC]; exact hwB
    · rw [hfsC, wwwLookup_writeWwwFile_other fsB "error.html" txt a hresv1]
      exact hwB
  have hbC : ∀ b, fsC.binLookup b a = fs1.binLookup b a := by
    intro b
    rcases hsec with ⟨hfsC, _⟩ | ⟨txt, hfsC, _⟩
    · rw [hfsC]; exact hbB b
    · rw [hfsC, binLookup_congr_bins (writeWwwFile_bins fsB "error.html" txt) b a]
      exact hbB b
  have hsm := save_meta_www_bins e3 fsC
  refine ⟨hpart1, ?_, ?_⟩
  · rw [hfs2, wwwLookup_congr_www hsm.1 a]
    exact hwC
  · intro b
    rw [hfs2, binLookup_congr_bins hsm.2 b a]
    exact hbC b

/-- C10 witness: after a concrete first cycle carrying `alpha` and a
second cycle without it whose Meta entry for `alpha` still records hash
`h1`, the stale dict entry survives validation and the file `alpha` stays
live, no snapshot receiving it. -/
theorem stale_story_dictonary_keeps_removed_story_live_witness :
    dictLookup engD2v.storyDictonary (.str "alpha") = some (storyW "alpha" "h1" "AAA") ∧
    fsD2.wwwLookup "alpha" = some "AAA" ∧
    (∀ b, fsD2.binLookup b "alpha" = fsD1.binLookup b "alpha") :=
  stale_story_dictonary_keeps_removed_story_live ckW Engine.init
    ⟨200, .ok docD1⟩ ⟨200, .ok docD2⟩ "NOW1" "NOW2" fsEmpty fsD1
    engD1 engDIn engD2v (opsOfSync runD1) (retOfSync runD1)
    (storyW "alpha" "h1" "AAA") metaD2 mstD2 entryD2 (.str "h1") (.str "h1")
    docD2 [storyW "beta" "hb2" "BBB2"] "alpha" "AAA" (ckW docD1)
    engD2 fsD2 opsD2 retD2
    (by rfl) (by rfl) (by rfl) (by rfl) (by rfl) (by rfl)
    (by
      intro t ht an han
      simp only [List.mem_singleton] at ht
      subst ht
      have han2 : (Except.ok (Json.str "beta") : Except PyExn Json) = Except.ok an := han
      injection han2 with he
      subst he
      exact ⟨by rfl, by decide⟩)
    (by rfl) (by rfl) (by rfl) (by rfl) (by decide) (by rfl) (by rfl) (by rfl)
    (by rfl) (by rfl) (by rfl) (by rfl) (by decide) (by decide) (by rfl)

end NRTK
